import Mathlib

/-!
Shallow embedding of the core logic of the indeed_bot repository:
the job registry (src/apps/extension/src/services/claude.ts, JobRegistry),
the answer cache (src/apps/extension/src/services/answer-cache.ts),
the discovery/pagination engine and the concurrent worker pool
(background orchestrator, collectAllJobs / collectAndApply /
launchNextWorker / finishWorkerAndReuseTab / stopBot).

JavaScript Sets and Maps are modelled as insertion-ordered lists without
duplicate keys; numeric scores are modelled as rationals; the cooperative
single-threaded scheduler is modelled as a small-step transition relation
whose steps are the synchronous blocks between suspension points.
-/

namespace IndeedBot

/-! ## Job registry (JobRegistry in services; ported from job_registry.py)

The registry holds a set of applied job keys and a map from skipped job
keys to skip reasons.  Persistence (chrome.storage round trips) is not
modelled: load and save move the same data unchanged.
-/

structure Registry where
  applied : List String
  skipped : List (String × String)
  deriving Repr, DecidableEq

def Registry.empty : Registry := ⟨[], []⟩

/-- Membership in the modelled JS Set of applied keys. -/
def Registry.appliedHas (r : Registry) (k : String) : Bool :=
  r.applied.contains k

/-- Membership in the modelled JS Map of skipped keys. -/
def Registry.skippedHas (r : Registry) (k : String) : Bool :=
  (r.skipped.map Prod.fst).contains k

/-- JS Set.add: append if not already present. -/
def setAdd (s : List String) (k : String) : List String :=
  if s.contains k then s else s ++ [k]

/-- JS Map.delete: remove the binding for the key. -/
def mapDelete (m : List (String × String)) (k : String) : List (String × String) :=
  m.filter (fun p => p.1 ≠ k)

/-- JS Map.set: replace the value in place when the key exists, else append. -/
def mapSet (m : List (String × String)) (k v : String) : List (String × String) :=
  if (m.map Prod.fst).contains k then
    m.map (fun p => if p.1 = k then (k, v) else p)
  else
    m ++ [(k, v)]

/-- JobRegistry.markApplied: add to applied, delete any skipped entry. -/
def Registry.markApplied (r : Registry) (k : String) : Registry :=
  { applied := setAdd r.applied k, skipped := mapDelete r.skipped k }

/-- JobRegistry.markSkipped: record a skip reason unless already applied. -/
def Registry.markSkipped (r : Registry) (k reason : String) : Registry :=
  if r.applied.contains k then r
  else { r with skipped := mapSet r.skipped k reason }

/-- JobRegistry.isKnown. -/
def Registry.isKnown (r : Registry) (k : String) : Bool :=
  r.appliedHas k || r.skippedHas k

/-- One registry mutation, as invoked by callers. -/
inductive RegOp where
  | markApplied (k : String)
  | markSkipped (k reason : String)
  deriving Repr, DecidableEq

def Registry.applyOp (r : Registry) (op : RegOp) : Registry :=
  match op with
  | .markApplied k => r.markApplied k
  | .markSkipped k reason => r.markSkipped k reason

def Registry.runOps (r : Registry) (ops : List RegOp) : Registry :=
  ops.foldl Registry.applyOp r

/-! ## Answer cache (services/answer-cache.ts)

Strings are lists of characters; the JS toLowerCase is modelled for the
character range the tokenizer keeps (ASCII letters plus the accented
letters listed in the source regex).  Scores are rationals.
-/

def STOP_WORDS : List String :=
  ["a", "an", "the", "is", "are", "was", "were", "be", "been", "being",
   "have", "has", "had", "do", "does", "did", "will", "would", "could",
   "should", "may", "might", "shall", "can", "to", "of", "in", "for",
   "on", "with", "at", "by", "from", "as", "into", "about", "between",
   "through", "after", "before", "above", "below", "and", "or", "but",
   "not", "no", "if", "then", "than", "that", "this", "these", "those",
   "it", "its", "you", "your", "we", "our", "um", "uma", "o", "os",
   "as", "de", "do", "da", "dos", "das", "em", "no", "na", "nos",
   "nas", "por", "para", "com", "sem", "e", "ou", "mas", "se"]

/-- Accented characters accepted by the tokenizer regex character class. -/
def accentedChars : List Char :=
  ['à', 'á', 'â', 'ã', 'é', 'ê', 'í', 'ó', 'ô', 'õ', 'ú', 'ü', 'ç', 'ñ']

/-- Uppercase forms of those accented characters with their lowercase images,
used to model the JS toLowerCase on the character range that matters here. -/
def accentedLowerMap : List (Char × Char) :=
  [('À', 'à'), ('Á', 'á'), ('Â', 'â'), ('Ã', 'ã'), ('É', 'é'), ('Ê', 'ê'),
   ('Í', 'í'), ('Ó', 'ó'), ('Ô', 'ô'), ('Õ', 'õ'), ('Ú', 'ú'), ('Ü', 'ü'),
   ('Ç', 'ç'), ('Ñ', 'ñ')]

def charLower (c : Char) : Char :=
  if 'A' ≤ c ∧ c ≤ 'Z' then Char.ofNat (c.toNat + 32)
  else
    match accentedLowerMap.find? (fun p => p.1 = c) with
    | some p => p.2
    | none => c

def toLowerStr (s : String) : String :=
  String.mk (s.toList.map charLower)

/-- Character class [a-zA-Z0-9àáâãéêíóôõúüçñ] of the cleanup regex. -/
def allowedChar (c : Char) : Bool :=
  ('a' ≤ c ∧ c ≤ 'z') ∨ ('A' ≤ c ∧ c ≤ 'Z') ∨ ('0' ≤ c ∧ c ≤ '9') ∨
    accentedChars.contains c

/-- Replacement of every character outside the allowed class by nothing. -/
def cleanWord (w : String) : String :=
  String.mk (w.toList.filter allowedChar)

/-- Helper for splitting on whitespace characters, accumulating the current
piece in reverse. -/
def splitWsAux : List Char → List Char → List String
  | [], acc => [String.mk acc.reverse]
  | c :: cs, acc =>
    if c.isWhitespace then String.mk acc.reverse :: splitWsAux cs []
    else splitWsAux cs (c :: acc)

/-- Splitting a string at whitespace characters.  Runs of whitespace yield
empty pieces, which the tokenizer drops anyway, so this matches the JS
split on one-or-more whitespace up to those empty pieces. -/
def splitWs (s : String) : List String :=
  splitWsAux s.toList []

/-- tokenize: lowercase, split on whitespace, strip disallowed characters,
drop empty, single-character and stop-word tokens, collect into a set
(modelled as a duplicate-free list in insertion order). -/
def tokenize (text : String) : List String :=
  (splitWs (toLowerStr text)).foldl
    (fun acc w =>
      let clean := cleanWord w
      if clean ≠ "" ∧ 1 < clean.length ∧ clean ∉ STOP_WORDS ∧ clean ∉ acc then
        acc ++ [clean]
      else acc)
    []

/-- similarity: Jaccard similarity of two token sets, zero when either is
empty.  Arguments are duplicate-free lists standing for JS Sets. -/
def similarity (a b : List String) : ℚ :=
  if a.length = 0 ∨ b.length = 0 then 0
  else
    let inter := (a.filter (fun t => b.contains t)).length
    let unionSize := a.length + b.length - inter
    (inter : ℚ) / (unionSize : ℚ)

/-- One row update of the Levenshtein dynamic-programming table:
given the previous row (distances of a-prefix without ac against all
b-prefixes), produce the cells of the new row after position zero.
left is the cell just computed to the left of the current one. -/
def levRowAux (ac : Char) : List Char → List Nat → Nat → List Nat
  | [], _, _ => []
  | bc :: bs, prev, left =>
    match prev with
    | [] => []
    | pdiag :: prest =>
      let pup := prest.headD 0
      let cost := if ac = bc then 0 else 1
      let cur := min (pup + 1) (min (left + 1) (pdiag + cost))
      cur :: levRowAux ac bs prest cur

def levNextRow (ac : Char) (bs : List Char) (prev : List Nat) : List Nat :=
  let first := prev.headD 0 + 1
  first :: levRowAux ac bs prev first

/-- Levenshtein distance by rows, the same recurrence as the dp table in
editDistanceRatio: dp[i][j] = min(dp[i-1][j]+1, dp[i][j-1]+1,
dp[i-1][j-1]+cost). -/
def levenshtein (a b : String) : Nat :=
  let bs := b.toList
  let finalRow := a.toList.foldl (fun row ac => levNextRow ac bs row)
    (List.range (bs.length + 1))
  finalRow.getLastD 0

/-- editDistanceRatio of the source: 1 - levenshtein(a,b) / max(len a, len b),
with the two degenerate empty-string cases first. -/
def editDistanceScore (a b : String) : ℚ :=
  let m := a.length
  let n := b.length
  if m = 0 ∧ n = 0 then 1
  else if m = 0 ∨ n = 0 then 0
  else 1 - (levenshtein a b : ℚ) / ((max m n : Nat) : ℚ)

/-- Loop body of bestOptionMatch: keep the score and option of the strictly
best edit-distance score seen so far. -/
def optionStep (aLower : String) (acc : ℚ × String) (opt : String) : ℚ × String :=
  let score := editDistanceScore aLower (toLowerStr opt)
  if score > acc.1 then (score, opt) else acc

/-- bestOptionMatch: scan the options keeping the strictly best edit-distance
score against the lowercased answer, starting from score 0 and the first
option; accept only a score above 0.3. -/
def bestOptionMatch (answer : String) (options : List String) : Option String :=
  if options.isEmpty then none
  else if (options.foldl (optionStep (toLowerStr answer))
      ((0 : ℚ), options.headD "")).1 > (3 : ℚ) / 10 then
    some (options.foldl (optionStep (toLowerStr answer))
      ((0 : ℚ), options.headD "")).2
  else none

structure CacheEntry where
  label : String
  tokens : List String
  inputType : String
  answer : String
  options : List String
  deriving Repr, DecidableEq

/-- Scan of the store loop: update the first entry of the same input type
whose stored token set has similarity above 0.85, returning none when no
entry matches (the caller then appends a fresh entry). -/
def storeScan (tokens : List String) (inputType answer : String)
    (options : Option (List String)) : List CacheEntry → Option (List CacheEntry)
  | [] => none
  | e :: rest =>
    if e.inputType = inputType ∧ similarity tokens e.tokens.dedup > (85 : ℚ) / 100 then
      some ({ e with answer := answer, options := options.getD e.options } :: rest)
    else
      (storeScan tokens inputType answer options rest).map (fun l => e :: l)

/-- AnswerCache.store on the entry list: no-op on an empty token set, in-place
update of a near-duplicate entry, else append. -/
def store (entries : List CacheEntry) (label inputType answer : String)
    (options : Option (List String)) : List CacheEntry :=
  let tokens := tokenize label
  if tokens.length = 0 then entries
  else
    match storeScan tokens inputType answer options entries with
    | some updated => updated
    | none => entries ++ [⟨label, tokens, inputType, answer, options.getD []⟩]

/-- Scan of the lookup loop: best score so far and the entry that achieved it,
considering only entries of the requested input type and updating only on a
strictly larger score. -/
def bestMatch (entries : List CacheEntry) (queryTokens : List String)
    (inputType : String) : ℚ × Option CacheEntry :=
  entries.foldl
    (fun acc e =>
      if e.inputType ≠ inputType then acc
      else
        let score := similarity queryTokens e.tokens.dedup
        if score > acc.1 then (score, some e) else acc)
    ((0 : ℚ), none)

/-- AnswerCache.lookup on the entry list: empty query token set misses, no
entry or a best score below the threshold misses, and for select or radio
fields with an option list the stored answer is resolved with
bestOptionMatch. -/
def lookup (entries : List CacheEntry) (label inputType : String)
    (options : Option (List String)) (threshold : ℚ) : Option String :=
  let queryTokens := tokenize label
  if queryTokens.length = 0 then none
  else
    let best := bestMatch entries queryTokens inputType
    match best.2 with
    | none => none
    | some bestEntry =>
      if best.1 < threshold then none
      else
        match options with
        | some opts =>
          if inputType = "select" ∨ inputType = "radio" then
            bestOptionMatch bestEntry.answer opts
          else some bestEntry.answer
        | none => some bestEntry.answer

/-! ## Discovery engine (collectAllJobs in the background orchestrator)

The model covers the collection pass of a single search query: the first
page probe, the paginated scraping loop with its shared empty-page streak,
the per-pass duplicate set, the registry check and the early exits.  The
page driver is a function from page numbers to page results; the registry
membership test is a fixed predicate, since the registry is not mutated
during collection.  The stop flag is not modelled here (stopping is covered
by the worker-pool model), and the ghost field consulted records which
pages were fetched from the driver. -/

structure Link where
  url : String
  jobKey : String
  deriving Repr, DecidableEq

/-- Result of collectSinglePage: the collected links, the card statistics,
the optional total-count estimate (present only when positive), and whether
navigation failed or the tab left the site. -/
structure PageResult where
  links : List Link
  totalCards : Nat
  externalApply : Nat
  jobCount : Option Nat
  error : Bool
  deriving Repr, DecidableEq

inductive JobStatus where
  | pending
  | applied
  | skipped
  | failed
  deriving Repr, DecidableEq

structure JobEntry where
  url : String
  jobKey : String
  status : JobStatus
  skipReason : Option String := none
  deriving Repr, DecidableEq

def JOBS_PER_PAGE : Nat := 10

def pendingCount (jobs : List JobEntry) : Nat :=
  (jobs.filter (fun j => j.status = JobStatus.pending)).length

/-- Collection state of one query pass: the global job list, the per-pass
seen set, the shared empty-page streak, the next page to assign, the
total-count estimate and derived page bound, the collection statistics, and
the ghost list of consulted pages. -/
structure CollectSt where
  jobs : List JobEntry
  seenJobKeys : List String
  globalEmptyStreak : Nat
  nextPage : Nat
  estimatedTotalJobs : Nat
  totalPages : Nat
  collectionDuplicates : Nat
  collectionAlreadyKnown : Nat
  collectionExternalApply : Nat
  consulted : List Nat
  deriving Repr, DecidableEq

/-- Body of the per-link loop: drop intra-pass duplicates, then mark the key
seen, then drop keys known to the registry, else enqueue a pending entry. -/
def processLink (known : String → Bool) (st : CollectSt) (link : Link) : CollectSt :=
  if st.seenJobKeys.contains link.jobKey then
    { st with collectionDuplicates := st.collectionDuplicates + 1 }
  else
    let st1 := { st with seenJobKeys := st.seenJobKeys ++ [link.jobKey] }
    if known link.jobKey then
      { st1 with collectionAlreadyKnown := st1.collectionAlreadyKnown + 1 }
    else
      { st1 with jobs := st1.jobs ++
          [{ url := link.url, jobKey := link.jobKey, status := JobStatus.pending }] }

/-- Pick up the total-count estimate from a page when none is known yet
(phase 2 of collection). -/
def pickupTotal (st : CollectSt) (res : PageResult) : CollectSt :=
  match res.jobCount with
  | some c =>
    if st.estimatedTotalJobs = 0 ∧ c ≠ 0 then
      { st with estimatedTotalJobs := c,
                totalPages := (c + JOBS_PER_PAGE - 1) / JOBS_PER_PAGE }
    else st
  | none => st

/-- Processing of one phase-2 page result, in page order: estimate pickup,
then an errored page counts toward the streak, then the external-apply
statistic, then an empty link list counts toward the streak, else the
streak resets and the links are folded through processLink. -/
def processResult (known : String → Bool) (st : CollectSt) (res : PageResult) : CollectSt :=
  let st1 := pickupTotal st res
  if res.error then { st1 with globalEmptyStreak := st1.globalEmptyStreak + 1 }
  else
    let st2 := { st1 with collectionExternalApply :=
      st1.collectionExternalApply + res.externalApply }
    if res.links.isEmpty then { st2 with globalEmptyStreak := st2.globalEmptyStreak + 1 }
    else
      res.links.foldl (processLink known) { st2 with globalEmptyStreak := 0 }

/-- Pages assigned to the scraping tabs for one round: consecutive page
numbers from nextPage, at most one per tab, stopping at the known page
bound when an estimate exists. -/
def pageAssignments (tabs : Nat) (st : CollectSt) : List Nat :=
  ((List.range tabs).map (fun i => st.nextPage + i)).takeWhile
    (fun pn => decide (¬(0 < st.estimatedTotalJobs ∧ 0 < st.totalPages ∧
      st.totalPages < pn)))

/-- Phase-2 pagination loop of collectAllJobs for one query.  Each round
checks the streak guard, the page-bound break and the empty-assignment
break, fetches the assigned pages, processes the results in page order,
applies the apply-limit early exit, and advances nextPage by the number of
assigned pages.  Fuel bounds the number of rounds. -/
def collectLoop (driver : Nat → PageResult) (known : String → Bool)
    (maxApplies tabs : Nat) : Nat → CollectSt → CollectSt
  | 0, st => st
  | fuel + 1, st =>
    if 3 ≤ st.globalEmptyStreak then st
    else if 0 < st.estimatedTotalJobs ∧ 0 < st.totalPages ∧
        st.totalPages < st.nextPage then st
    else
      let asg := pageAssignments tabs st
      if asg.isEmpty then st
      else
        let st1 := asg.foldl
          (fun s pn =>
            processResult known { s with consulted := s.consulted ++ [pn] } (driver pn))
          st
        if 0 < maxApplies ∧ maxApplies ≤ pendingCount st1.jobs then st1
        else
          collectLoop driver known maxApplies tabs fuel
            { st1 with nextPage := st.nextPage + asg.length }

/-- Estimate pickup from the first page (unconditional, the per-query
estimate was just reset). -/
def pickupTotalFirst (st : CollectSt) (res : PageResult) : CollectSt :=
  match res.jobCount with
  | some c =>
    if c ≠ 0 then
      { st with estimatedTotalJobs := c,
                totalPages := (c + JOBS_PER_PAGE - 1) / JOBS_PER_PAGE }
    else st
  | none => st

/-- Processing of the first page of a query: a page with links or with
nonzero cards is processed through the link loop, anything else starts the
empty streak at one. -/
def processFirstPage (known : String → Bool) (st : CollectSt) (res : PageResult) :
    CollectSt :=
  let st1 := pickupTotalFirst st res
  if 0 < res.links.length ∨ 0 < res.totalCards then
    let st2 := { st1 with collectionExternalApply :=
      st1.collectionExternalApply + res.externalApply }
    res.links.foldl (processLink known) st2
  else
    { st1 with
        collectionExternalApply := st1.collectionExternalApply + res.externalApply,
        globalEmptyStreak := st1.globalEmptyStreak + 1 }

/-- State of a query pass right before the first page is processed: fresh
seen set, streak and statistics, the global job list carried over, page 1
about to be consulted and phase 2 set to start at page 2. -/
def initCollectSt (J0 : List JobEntry) : CollectSt :=
  { jobs := J0, seenJobKeys := [], globalEmptyStreak := 0, nextPage := 2,
    estimatedTotalJobs := 0, totalPages := 0, collectionDuplicates := 0,
    collectionAlreadyKnown := 0, collectionExternalApply := 0, consulted := [1] }

/-- Collection pass for one search query, starting from the global job list
as it stands when the query begins: first-page probe, apply-limit early
exit, then the phase-2 loop starting at page 2. -/
def collectQuery (J0 : List JobEntry) (driver : Nat → PageResult)
    (known : String → Bool) (maxApplies tabs fuel : Nat) : CollectSt :=
  let st1 := processFirstPage known (initCollectSt J0) (driver 1)
  if 0 < maxApplies ∧ maxApplies ≤ pendingCount st1.jobs then st1
  else collectLoop driver known maxApplies tabs fuel st1

/-- Pages counting toward the phase-2 empty streak: errored pages and pages
with an empty link list (regardless of how many of the links of a non-empty
page turn out to be duplicates or known). -/
def countsEmpty (res : PageResult) : Bool :=
  res.error || res.links.isEmpty

/-- Position of a single-tab pagination pass relative to a window of three
empty pages starting at page p: either the pass has not reached p, or it
has consumed a prefix of the window and accumulated a matching streak. -/
def StreakPos (st : CollectSt) (p : Nat) : Prop :=
  st.nextPage ≤ p ∨
  (st.nextPage = p + 1 ∧ 1 ≤ st.globalEmptyStreak) ∨
  (st.nextPage = p + 2 ∧ 2 ≤ st.globalEmptyStreak) ∨
  (st.nextPage = p + 3 ∧ 3 ≤ st.globalEmptyStreak)

/-- Page driver for the C2 counterexample: pages 1 to 4 return the same
single link, page 5 returns a fresh link, every later page is empty. -/
def c2Driver : Nat → PageResult := fun pn =>
  if pn ≤ 4 then
    { links := [⟨"https://jobs/a", "a"⟩], totalCards := 1, externalApply := 0,
      jobCount := none, error := false }
  else if pn = 5 then
    { links := [⟨"https://jobs/b", "b"⟩], totalCards := 1, externalApply := 0,
      jobCount := none, error := false }
  else
    { links := [], totalCards := 0, externalApply := 0, jobCount := none,
      error := false }

/-- Invariant of a collection pass: the per-pass seen set holds no
duplicates, and the job list extends the list from before the pass with
entries whose keys are pairwise distinct, unknown to the registry, seen in
this pass, and pending. -/
def CollectInv (known : String → Bool) (J0 : List JobEntry) (st : CollectSt) : Prop :=
  st.seenJobKeys.Nodup ∧
  ∃ new : List JobEntry, st.jobs = J0 ++ new ∧
    (new.map (fun j => j.jobKey)).Nodup ∧
    ∀ j ∈ new, known j.jobKey = false ∧ j.jobKey ∈ st.seenJobKeys ∧
      j.status = JobStatus.pending

/-! ## Worker pool (collectAndApply, launchNextWorker, finishWorkerAndReuseTab,
stopBot, onTabSubmitted in the background orchestrator)

The cooperative single-threaded scheduler is modelled as a small-step
transition relation: each step is one synchronous block between suspension
points.  Claiming a job in launchNextWorker (select the first pending
entry, mark it with the transient in-progress status, push the worker) is
one such block, since the source contains no await between the selection
and the mutation.  finishWorkerAndReuseTab however suspends (await of a
delay) between marking the worker done and launching the replacement on
its tab, so it is modelled as two steps: a synchronous prefix that marks
the worker done and, when the guard passes, arms a delayed relaunch
(recorded in pendingRelaunch), and a separate resume step that performs
the launchNextWorker call of one armed relaunch.  The poll loop of
collectAndApply can interleave between the two.  Workers are kept in the
list after stopBot so that continuations of in-flight asynchronous
operations can still be modelled as steps; the source instead empties
tabWorkers and lets the orphaned closures run, with the same guard on the
stop flag at every claim site. -/

inductive WPhase where
  | navigating
  | filling
  | waiting_review
  | done
  deriving Repr, DecidableEq

structure TabWorker where
  tabId : Int
  jobIdx : Nat
  phase : WPhase
  deriving Repr, DecidableEq

inductive BState where
  | idle
  | collecting
  | applying
  | paused
  deriving Repr, DecidableEq

structure PoolState where
  jobs : List JobEntry
  tabWorkers : List TabWorker
  appliedCount : Nat
  skippedCount : Nat
  failedCount : Nat
  maxApplies : Nat
  concurrentTabs : Nat
  stopRequested : Bool
  botState : BState
  closedTabs : List Int
  pendingRelaunch : List Int
  deriving Repr, DecidableEq

/-- Effective concurrency limit: settings.concurrentTabs or 1. -/
def PoolState.maxTabs (s : PoolState) : Nat :=
  if s.concurrentTabs = 0 then 1 else s.concurrentTabs

/-- Number of workers in a non-done phase. -/
def PoolState.activeWorkers (s : PoolState) : Nat :=
  (s.tabWorkers.filter (fun w => w.phase ≠ WPhase.done)).length

/-- Index of the first pending entry of a job list. -/
def findPendingIdx : List JobEntry → Option Nat
  | [] => none
  | j :: rest =>
    if j.status = JobStatus.pending then some 0
    else (findPendingIdx rest).map (fun i => i + 1)

/-- Index of the first pending job (getNextPendingJob). -/
def PoolState.nextPendingIdx (s : PoolState) : Option Nat :=
  findPendingIdx s.jobs

/-- Claim marker of launchNextWorker: the transient in-progress status is the
skipped status with the in_progress skip reason. -/
def claimJob (jobs : List JobEntry) (i : Nat) : List JobEntry :=
  match jobs[i]? with
  | some j =>
    jobs.set i { j with status := JobStatus.skipped, skipReason := some "in_progress" }
  | none => jobs

/-- launchNextWorker: refuse when stop was requested or the apply limit is
reached, otherwise claim the first pending job synchronously and push a new
worker in the navigating phase. -/
def launchNextWorker (tabId : Int) (s : PoolState) : PoolState :=
  if s.stopRequested then s
  else if 0 < s.maxApplies ∧ s.maxApplies ≤ s.appliedCount then s
  else
    match s.nextPendingIdx with
    | none => s
    | some i =>
      { s with jobs := claimJob s.jobs i,
               tabWorkers := s.tabWorkers ++ [⟨tabId, i, WPhase.navigating⟩] }

/-- Terminal outcome of a worker run, as set by the pipeline branches and the
completion handler before finishWorkerAndReuseTab is called. -/
inductive Outcome where
  | applied
  | skippedWith (reason : String)
  | failed
  deriving Repr, DecidableEq

def setJobStatus (jobs : List JobEntry) (i : Nat) (st : JobStatus) : List JobEntry :=
  match jobs[i]? with
  | some j => jobs.set i { j with status := st }
  | none => jobs

def setJobSkipped (jobs : List JobEntry) (i : Nat) (reason : String) : List JobEntry :=
  match jobs[i]? with
  | some j => jobs.set i { j with status := JobStatus.skipped, skipReason := some reason }
  | none => jobs

/-- Job and counter mutation performed by the branch that finishes a worker:
applied bumps appliedCount, a skip records its reason, a failure bumps
failedCount. -/
def applyOutcome (s : PoolState) (i : Nat) (o : Outcome) : PoolState :=
  match o with
  | Outcome.applied =>
    { s with jobs := setJobStatus s.jobs i JobStatus.applied,
             appliedCount := s.appliedCount + 1 }
  | Outcome.skippedWith r =>
    { s with jobs := setJobSkipped s.jobs i r,
             skippedCount := s.skippedCount + 1 }
  | Outcome.failed =>
    { s with jobs := setJobStatus s.jobs i JobStatus.failed,
             failedCount := s.failedCount + 1 }

/-- Worker phase mutation (worker.state assignment). -/
def setWorkerPhase (s : PoolState) (wi : Nat) (p : WPhase) : PoolState :=
  match s.tabWorkers[wi]? with
  | some w => { s with tabWorkers := s.tabWorkers.set wi { w with phase := p } }
  | none => s

def markWorkerDone (s : PoolState) (wi : Nat) : PoolState :=
  setWorkerPhase s wi WPhase.done

/-- Synchronous prefix of finishWorkerAndReuseTab, up to its await of the
fixed delay: mark the worker done and, when stop was not requested and
pending jobs remain, arm the delayed relaunch of the worker tab.  The
launchNextWorker call itself happens later, as the resume step of the
armed relaunch. -/
def finishWorkerSync (s : PoolState) (wi : Nat) : PoolState :=
  let s1 := markWorkerDone s wi
  if s1.stopRequested = false ∧
      s1.jobs.any (fun j => j.status = JobStatus.pending) then
    match s1.tabWorkers[wi]? with
    | some w => { s1 with pendingRelaunch := s1.pendingRelaunch ++ [w.tabId] }
    | none => s1
  else s1

/-- stopBot: set the cooperative cancellation flag, force the state to idle,
and close every worker tab handle. -/
def stopBot (s : PoolState) : PoolState :=
  { s with stopRequested := true,
           botState := BState.idle,
           closedTabs := s.closedTabs ++ s.tabWorkers.map (fun w => w.tabId) }

/-- Initial batch size of collectAndApply:
min(concurrencyLimit, pendingCount, remainingApplyBudget). -/
def PoolState.numWorkers (s : PoolState) : Nat :=
  let pending := pendingCount s.jobs
  let remaining := if 0 < s.maxApplies then s.maxApplies - s.appliedCount else pending
  min s.maxTabs (min pending remaining)

def launchLoop (n : Nat) (s : PoolState) : PoolState :=
  match n with
  | 0 => s
  | n + 1 => launchLoop n (launchNextWorker (-1) s)

/-- Initial worker batch of collectAndApply. -/
def launchBatch (s : PoolState) : PoolState :=
  launchLoop s.numWorkers s

/-- State of the pool when the applying phase starts. -/
def initPoolState (jobs0 : List JobEntry) (maxApplies concurrentTabs : Nat) : PoolState :=
  { jobs := jobs0, tabWorkers := [], appliedCount := 0, skippedCount := 0,
    failedCount := 0, maxApplies := maxApplies, concurrentTabs := concurrentTabs,
    stopRequested := false, botState := BState.applying, closedTabs := [],
    pendingRelaunch := [] }

/-- One scheduler step of the applying phase: a worker run reaching its
terminal outcome (ending in the synchronous prefix of the finish routine,
which arms the delayed relaunch), the resume of an armed relaunch after
its delay (the launchNextWorker call of the finish routine), a worker
phase change short of done, the poll-loop replacement launch when no
worker is active, or a stop request from the user. -/
inductive PoolStep : PoolState → PoolState → Prop where
  | finish (s : PoolState) (wi : Nat) (o : Outcome) (hw : wi < s.tabWorkers.length)
      (hactive : (s.tabWorkers.get ⟨wi, hw⟩).phase ≠ WPhase.done) :
      PoolStep s (finishWorkerSync
        (applyOutcome s (s.tabWorkers.get ⟨wi, hw⟩).jobIdx o) wi)
  | resume (s : PoolState) (k : Nat) (hk : k < s.pendingRelaunch.length) :
      PoolStep s (launchNextWorker (s.pendingRelaunch.get ⟨k, hk⟩)
        { s with pendingRelaunch := s.pendingRelaunch.eraseIdx k })
  | advance (s : PoolState) (wi : Nat) (p : WPhase) (hw : wi < s.tabWorkers.length)
      (hactive : (s.tabWorkers.get ⟨wi, hw⟩).phase ≠ WPhase.done)
      (hp : p ≠ WPhase.done) :
      PoolStep s (setWorkerPhase s wi p)
  | pollLaunch (s : PoolState) (h0 : s.activeWorkers = 0)
      (hp : s.jobs.any (fun j => j.status = JobStatus.pending) = true)
      (hrun : s.stopRequested = false) :
      PoolStep s (launchNextWorker (-1) s)
  | stop (s : PoolState) : PoolStep s (stopBot s)

/-- Reflexive-transitive closure of the pool steps. -/
inductive PoolSteps : PoolState → PoolState → Prop where
  | refl (s : PoolState) : PoolSteps s s
  | tail {s t u : PoolState} (h1 : PoolSteps s t) (h2 : PoolStep t u) : PoolSteps s u

/-- States reachable during the applying phase started on jobs0. -/
def PoolReachable (jobs0 : List JobEntry) (ma ct : Nat) (s : PoolState) : Prop :=
  PoolSteps (launchBatch (initPoolState jobs0 ma ct)) s

/-- A job index held by some worker: the entry exists and is no longer
pending, so no later claim can select it again. -/
def jobClaimed (jobs : List JobEntry) (i : Nat) : Prop :=
  ∃ j, jobs[i]? = some j ∧ j.status ≠ JobStatus.pending

/-- Claim invariant of the pool: no two workers ever hold the same job
index, and every held index points to a non-pending entry. -/
def ClaimInv (s : PoolState) : Prop :=
  (s.tabWorkers.map (fun w => w.jobIdx)).Nodup ∧
  ∀ w ∈ s.tabWorkers, jobClaimed s.jobs w.jobIdx

/-- Pool state for the C7 counterexample: one active worker on a claimed
job, one pending job left, and an apply limit of one that the finishing
worker is about to reach. -/
def cexPool : PoolState :=
  { jobs := [⟨"https://jobs/a", "a", JobStatus.skipped, some "in_progress"⟩,
             ⟨"https://jobs/b", "b", JobStatus.pending, none⟩],
    tabWorkers := [⟨1, 0, WPhase.waiting_review⟩],
    appliedCount := 0, skippedCount := 0, failedCount := 0,
    maxApplies := 1, concurrentTabs := 3, stopRequested := false,
    botState := BState.applying, closedTabs := [], pendingRelaunch := [] }

/-- Two fresh pending jobs, used to instantiate the pool theorems. -/
def twoPendingJobs : List JobEntry :=
  [⟨"https://jobs/a", "a", JobStatus.pending, none⟩,
   ⟨"https://jobs/b", "b", JobStatus.pending, none⟩]

/-- Three fresh pending jobs, used for the concurrency-limit counterexample. -/
def threePendingJobs : List JobEntry :=
  [⟨"https://jobs/a", "a", JobStatus.pending, none⟩,
   ⟨"https://jobs/b", "b", JobStatus.pending, none⟩,
   ⟨"https://jobs/c", "c", JobStatus.pending, none⟩]

/-- State after the initial single-worker batch on three pending jobs has
its worker finish with a skip: the worker is done and its delayed relaunch
is armed. -/
def olState1 : PoolState :=
  finishWorkerSync
    (applyOutcome (launchBatch (initPoolState threePendingJobs 0 1)) 0
      (Outcome.skippedWith "external_apply")) 0

/-- State after the poll loop, seeing zero active workers during the
armed relaunch delay, launches a replacement. -/
def olState2 : PoolState :=
  launchNextWorker (-1) olState1

/-- State after the armed relaunch resumes and launches another worker:
two workers are now active although concurrentTabs is 1. -/
def overLimitState : PoolState :=
  launchNextWorker (-1)
    { olState2 with pendingRelaunch := olState2.pendingRelaunch.eraseIdx 0 }

/-- State reached from the C7 counterexample pool by: the worker finishing
with an applied outcome that exhausts the apply limit (arming its delayed
relaunch, since a pending job remains), and the armed relaunch resuming;
launchNextWorker then declines, so no replacement is launched. -/
def budgetExhaustedFinish : PoolState :=
  let b2 := finishWorkerSync (applyOutcome cexPool 0 Outcome.applied) 0
  launchNextWorker 1 { b2 with pendingRelaunch := b2.pendingRelaunch.eraseIdx 0 }

/-- Pool state for the C7 witness: like the counterexample but without an
apply limit, so the finishing worker does launch a replacement. -/
def replacementPool : PoolState :=
  { jobs := [⟨"https://jobs/a", "a", JobStatus.skipped, some "in_progress"⟩,
             ⟨"https://jobs/b", "b", JobStatus.pending, none⟩],
    tabWorkers := [⟨1, 0, WPhase.waiting_review⟩],
    appliedCount := 0, skippedCount := 0, failedCount := 0,
    maxApplies := 0, concurrentTabs := 3, stopRequested := false,
    botState := BState.applying, closedTabs := [], pendingRelaunch := [] }

/-! ## Theorems -/

section Theorems

set_option maxRecDepth 40000

attribute [local semireducible] Rat.sub Rat.add Rat.mul Rat.inv

/-! ### Job registry -/

/-- Disjointness of the applied set and the skipped map. -/
def RegDisjoint (r : Registry) : Prop :=
  ∀ k, ¬(r.appliedHas k = true ∧ r.skippedHas k = true)

lemma skippedHas_markApplied (r : Registry) (k : String) :
    (r.markApplied k).skippedHas k = false := by
  simp only [Registry.markApplied, Registry.skippedHas, mapDelete]
  simp only [Bool.eq_false_iff, ne_eq]
  intro h
  rw [List.elem_iff] at h
  obtain ⟨p, hp, hpk⟩ := List.mem_map.mp h
  have := List.mem_filter.mp hp
  simp at this
  exact this.2 hpk

lemma appliedHas_markApplied (r : Registry) (k k' : String) :
    (r.markApplied k).appliedHas k' = true → k' = k ∨ r.appliedHas k' = true := by
  simp only [Registry.markApplied, Registry.appliedHas, setAdd]
  split
  · intro h; right; exact h
  · intro h
    rw [List.elem_iff] at h
    rcases List.mem_append.mp h with h1 | h1
    · right; rw [List.elem_iff]; exact h1
    · left; simpa using h1

lemma skippedHas_markApplied_other (r : Registry) (k k' : String) :
    (r.markApplied k).skippedHas k' = true → r.skippedHas k' = true := by
  simp only [Registry.markApplied, Registry.skippedHas, mapDelete]
  intro h
  rw [List.elem_iff] at h ⊢
  obtain ⟨p, hp, hpk⟩ := List.mem_map.mp h
  exact List.mem_map.mpr ⟨p, (List.mem_filter.mp hp).1, hpk⟩

lemma skippedHas_markSkipped (r : Registry) (k reason k' : String) :
    (r.markSkipped k reason).skippedHas k' = true →
      k' = k ∨ r.skippedHas k' = true := by
  simp only [Registry.markSkipped, Registry.skippedHas]
  split
  · intro h; right; exact h
  · intro h
    simp only [mapSet] at h
    split at h
    · rw [List.elem_iff] at h
      obtain ⟨p, hp, hpk⟩ := List.mem_map.mp h
      obtain ⟨q, hq, hqp⟩ := List.mem_map.mp hp
      by_cases hqk : q.1 = k
      · left; rw [← hpk]; simp [hqk] at hqp; rw [← hqp]
      · right; rw [List.elem_iff]
        simp [hqk] at hqp
        exact List.mem_map.mpr ⟨q, hq, by rw [← hqp] at hpk; exact hpk⟩
    · rw [List.elem_iff] at h
      obtain ⟨p, hp, hpk⟩ := List.mem_map.mp h
      rcases List.mem_append.mp hp with h1 | h1
      · right; rw [List.elem_iff]; exact List.mem_map.mpr ⟨p, h1, hpk⟩
      · left; simp only [List.mem_singleton] at h1; rw [← hpk, h1]

lemma appliedHas_markSkipped (r : Registry) (k reason k' : String) :
    (r.markSkipped k reason).appliedHas k' = r.appliedHas k' := by
  simp only [Registry.markSkipped]
  split <;> rfl

lemma applyOp_disjoint (r : Registry) (op : RegOp) (h : RegDisjoint r) :
    RegDisjoint (r.applyOp op) := by
  cases op with
  | markApplied k =>
    intro k' ⟨ha, hs⟩
    simp only [Registry.applyOp] at ha hs
    by_cases hk : k' = k
    · rw [hk] at hs
      rw [skippedHas_markApplied] at hs
      exact Bool.false_ne_true hs
    · rcases appliedHas_markApplied r k k' ha with h1 | h1
      · exact hk h1
      · exact h k' ⟨h1, skippedHas_markApplied_other r k k' hs⟩
  | markSkipped k reason =>
    intro k' ⟨ha, hs⟩
    rw [Registry.applyOp] at ha hs
    rw [appliedHas_markSkipped] at ha
    rcases skippedHas_markSkipped r k reason k' hs with h1 | h1
    · subst h1
      simp only [Registry.markSkipped] at hs
      rw [Registry.appliedHas] at ha
      rw [ha] at hs
      simp only [if_true] at hs
      exact h k' ⟨ha, hs⟩
    · exact h k' ⟨ha, h1⟩

lemma runOps_disjoint_from (r : Registry) (h : RegDisjoint r) (ops : List RegOp) :
    RegDisjoint (r.runOps ops) := by
  induction ops generalizing r with
  | nil => exact h
  | cons op rest ih =>
    simp only [Registry.runOps, List.foldl_cons]
    exact ih (r.applyOp op) (applyOp_disjoint r op h)

lemma empty_disjoint : RegDisjoint Registry.empty := by
  intro k ⟨ha, _⟩
  simp [Registry.empty, Registry.appliedHas] at ha

/-- C1: for every sequence of markApplied and markSkipped operations run from
the empty registry, no key is ever simultaneously a member of the applied
set and the skipped map, and markApplied always removes any prior skipped
entry for its key. -/
theorem registry_applied_skipped_mutual_exclusion :
    (∀ (ops : List RegOp) (k : String),
      ((Registry.runOps Registry.empty ops).appliedHas k &&
        (Registry.runOps Registry.empty ops).skippedHas k) = false) ∧
    (∀ (r : Registry) (k : String), (r.markApplied k).skippedHas k = false) := by
  constructor
  · intro ops k
    have h := runOps_disjoint_from Registry.empty empty_disjoint ops k
    cases ha : (Registry.runOps Registry.empty ops).appliedHas k with
    | false => simp
    | true =>
      cases hs : (Registry.runOps Registry.empty ops).skippedHas k with
      | false => simp
      | true => exact absurd ⟨ha, hs⟩ h
  · exact skippedHas_markApplied

/-- Witness for C1: a concrete run that skips a key and then applies it ends
with the key applied and not skipped. -/
theorem registry_applied_skipped_mutual_exclusion_witness :
    ((Registry.runOps Registry.empty
        [RegOp.markSkipped "job1" "external_apply", RegOp.markApplied "job1"]).appliedHas "job1" &&
      (Registry.runOps Registry.empty
        [RegOp.markSkipped "job1" "external_apply", RegOp.markApplied "job1"]).skippedHas "job1") = false ∧
    ((Registry.empty.markSkipped "job1" "external_apply").markApplied "job1").skippedHas "job1" = false :=
  ⟨registry_applied_skipped_mutual_exclusion.1
      [RegOp.markSkipped "job1" "external_apply", RegOp.markApplied "job1"] "job1",
    registry_applied_skipped_mutual_exclusion.2
      (Registry.empty.markSkipped "job1" "external_apply") "job1"⟩

/-! ### Option resolution (C3) -/

lemma optionFold_spec (aL : String) (opts : List String) (acc : ℚ × String) :
    (opts.foldl (optionStep aL) acc = acc ∨
      ((opts.foldl (optionStep aL) acc).2 ∈ opts ∧
        (opts.foldl (optionStep aL) acc).1 =
          editDistanceScore aL (toLowerStr (opts.foldl (optionStep aL) acc).2))) ∧
    acc.1 ≤ (opts.foldl (optionStep aL) acc).1 ∧
    ∀ o ∈ opts, editDistanceScore aL (toLowerStr o) ≤ (opts.foldl (optionStep aL) acc).1 := by
  induction opts generalizing acc with
  | nil => simp
  | cons o os ih =>
    simp only [List.foldl_cons]
    obtain ⟨h1, h2, h3⟩ := ih (optionStep aL acc o)
    have hstep1 : acc.1 ≤ (optionStep aL acc o).1 := by
      simp only [optionStep]
      split
      · exact le_of_lt (by assumption)
      · exact le_refl _
    have hstep2 : editDistanceScore aL (toLowerStr o) ≤ (optionStep aL acc o).1 := by
      simp only [optionStep]
      split
      · exact le_refl _
      · exact le_of_not_lt (by assumption)
    refine ⟨?_, le_trans hstep1 h2, ?_⟩
    · rcases h1 with h1 | h1
      · rw [h1]
        by_cases hu : editDistanceScore aL (toLowerStr o) > acc.1
        · right
          simp only [optionStep, if_pos hu]
          exact ⟨List.mem_cons_self o os, trivial⟩
        · left
          simp only [optionStep, if_neg hu]
      · right
        exact ⟨List.mem_cons_of_mem o h1.1, h1.2⟩
    · intro o' ho'
      rcases List.mem_cons.mp ho' with rfl | ho'
      · exact le_trans hstep2 h2
      · exact h3 o' ho'

lemma bestOptionMatch_some (ans : String) (opts : List String) (r : String)
    (h : bestOptionMatch ans opts = some r) :
    r ∈ opts ∧
      editDistanceScore (toLowerStr ans) (toLowerStr r) > (3 : ℚ) / 10 ∧
      ∀ o ∈ opts, editDistanceScore (toLowerStr ans) (toLowerStr o) ≤
        editDistanceScore (toLowerStr ans) (toLowerStr r) := by
  unfold bestOptionMatch at h
  split at h
  · exact absurd h (by simp)
  · split at h
    · next hthr =>
      have hr : (opts.foldl (optionStep (toLowerStr ans)) ((0 : ℚ), opts.headD "")).2 = r :=
        Option.some.inj h
      obtain ⟨hspec, _, hmax⟩ := optionFold_spec (toLowerStr ans) opts ((0 : ℚ), opts.headD "")
      rcases hspec with heq | hbest
      · rw [heq] at hthr
        norm_num at hthr
      · rw [hr] at hbest
        rw [hbest.2] at hthr hmax
        exact ⟨hbest.1, hthr, hmax⟩
    · exact absurd h (by simp)

/-- C3 counterexample: on options Yes and No with the generated answer
claimed in the specification, the resolver returns none rather than No,
because neither similarity exceeds 0.3. -/
theorem option_resolution_example_counterexample :
    bestOptionMatch "no, not applicable" ["Yes", "No"] = none ∧
    ((bestOptionMatch "no, not applicable" ["Yes", "No"]) == some "No") = false := by
  constructor
  · decide
  · decide

/-- C3 amended: option resolution accepts only an option of maximal
normalized edit-distance similarity and only above 0.3; on options Yes and
No with the answer claimed in the specification it therefore returns none
(the similarities are one ninth and zero). -/
theorem option_resolution_amended :
    (∀ (ans : String) (opts : List String) (r : String),
      bestOptionMatch ans opts = some r →
        r ∈ opts ∧
          editDistanceScore (toLowerStr ans) (toLowerStr r) > (3 : ℚ) / 10 ∧
          ∀ o ∈ opts, editDistanceScore (toLowerStr ans) (toLowerStr o) ≤
            editDistanceScore (toLowerStr ans) (toLowerStr r)) ∧
    bestOptionMatch "no, not applicable" ["Yes", "No"] = none ∧
    editDistanceScore (toLowerStr "no, not applicable") (toLowerStr "no") = (1 : ℚ) / 9 ∧
    editDistanceScore (toLowerStr "no, not applicable") (toLowerStr "yes") = 0 :=
  ⟨bestOptionMatch_some, by decide, by decide, by decide⟩

/-- Witness for the C3 amended theorem at a concrete accepted resolution. -/
theorem option_resolution_amended_witness :
    bestOptionMatch "yes" ["Yes", "No"] = some "Yes" ∧
    ("Yes" ∈ ["Yes", "No"] ∧
      editDistanceScore (toLowerStr "yes") (toLowerStr "Yes") > (3 : ℚ) / 10 ∧
      ∀ o ∈ ["Yes", "No"], editDistanceScore (toLowerStr "yes") (toLowerStr o) ≤
        editDistanceScore (toLowerStr "yes") (toLowerStr "Yes")) :=
  ⟨by decide, option_resolution_amended.1 "yes" ["Yes", "No"] "Yes" (by decide)⟩

/-- Lemma: a best score strictly below the threshold makes lookup miss. -/
lemma lookup_below_threshold (entries : List CacheEntry) (label inputType : String)
    (opts : Option (List String)) (thr : ℚ)
    (h : (bestMatch entries (tokenize label) inputType).1 < thr) :
    lookup entries label inputType opts thr = none := by
  by_cases h0 : (tokenize label).length = 0
  · simp [lookup, h0]
  · cases hb : (bestMatch entries (tokenize label) inputType).2 with
    | none => simp [lookup, h0, hb]
    | some be => simp [lookup, h0, hb, h]

lemma lookup_some_threshold (entries : List CacheEntry) (label inputType : String)
    (opts : Option (List String)) (thr : ℚ) (r : String)
    (h : lookup entries label inputType opts thr = some r) :
    thr ≤ (bestMatch entries (tokenize label) inputType).1 := by
  by_contra hlt
  rw [lookup_below_threshold entries label inputType opts thr (lt_of_not_ge hlt)] at h
  exact Option.noConfusion h

/-- C4 counterexample: a best Jaccard score exactly equal to the default 0.5
threshold returns the stored answer, not a cache miss. -/
theorem lookup_threshold_counterexample :
    lookup [⟨"beta gamma delta", ["beta", "gamma", "delta"], "text", "A", []⟩]
      "alpha beta gamma" "text" none ((1 : ℚ) / 2) = some "A" ∧
    (bestMatch [⟨"beta gamma delta", ["beta", "gamma", "delta"], "text", "A", []⟩]
      (tokenize "alpha beta gamma") "text").1 = (1 : ℚ) / 2 := by
  constructor
  · decide
  · decide

/-- C4 amended: lookup misses exactly when the best score over same-type
entries is strictly below the threshold; whenever an answer is returned,
the best score is greater than or equal to the threshold. -/
theorem lookup_threshold_amended :
    (∀ (entries : List CacheEntry) (label inputType : String)
        (opts : Option (List String)) (thr : ℚ),
      (bestMatch entries (tokenize label) inputType).1 < thr →
        lookup entries label inputType opts thr = none) ∧
    (∀ (entries : List CacheEntry) (label inputType : String)
        (opts : Option (List String)) (thr : ℚ) (r : String),
      lookup entries label inputType opts thr = some r →
        thr ≤ (bestMatch entries (tokenize label) inputType).1) :=
  ⟨lookup_below_threshold, lookup_some_threshold⟩

/-- Witness for the C4 amended theorem at concrete cache contents. -/
theorem lookup_threshold_amended_witness :
    lookup [] "phone number" "text" none ((1 : ℚ) / 2) = none ∧
    (1 : ℚ) / 2 ≤ (bestMatch
      [⟨"beta gamma delta", ["beta", "gamma", "delta"], "text", "A", []⟩]
      (tokenize "alpha beta gamma") "text").1 :=
  ⟨lookup_threshold_amended.1 [] "phone number" "text" none ((1 : ℚ) / 2) (by decide),
    lookup_threshold_amended.2
      [⟨"beta gamma delta", ["beta", "gamma", "delta"], "text", "A", []⟩]
      "alpha beta gamma" "text" none ((1 : ℚ) / 2) "A" (by decide)⟩

/-- C5: storing the phone-number answer and looking up the paraphrased label
returns the stored answer (Jaccard two thirds, above one half), while the
unrelated resume label misses. -/
theorem cache_round_trip :
    lookup (store [] "What is your phone number?" "text" "123" none)
      "Your phone number" "text" none ((1 : ℚ) / 2) = some "123" ∧
    similarity (tokenize "Your phone number") (tokenize "What is your phone number?")
      = (2 : ℚ) / 3 ∧
    lookup (store [] "What is your phone number?" "text" "123" none)
      "Upload your resume" "text" none ((1 : ℚ) / 2) = none := by
  refine ⟨by decide, by decide, by decide⟩

lemma store_empty_tokens (entries : List CacheEntry) (label inputType answer : String)
    (opts : Option (List String)) (h : tokenize label = []) :
    store entries label inputType answer opts = entries := by
  simp [store, h]

lemma lookup_empty_tokens (entries : List CacheEntry) (label inputType : String)
    (opts : Option (List String)) (thr : ℚ) (h : tokenize label = []) :
    lookup entries label inputType opts thr = none := by
  simp [lookup, h]

/-- C10: a label whose token set is empty makes store a no-op and makes
lookup return none regardless of the cache contents. -/
theorem empty_token_set_noop :
    (∀ (entries : List CacheEntry) (label inputType answer : String)
        (opts : Option (List String)),
      tokenize label = [] → store entries label inputType answer opts = entries) ∧
    (∀ (entries : List CacheEntry) (label inputType : String)
        (opts : Option (List String)) (thr : ℚ),
      tokenize label = [] → lookup entries label inputType opts thr = none) :=
  ⟨fun entries label it ans opts h => store_empty_tokens entries label it ans opts h,
    fun entries label it opts thr h => lookup_empty_tokens entries label it opts thr h⟩

/-- Witness for C10 on a label of pure stop-words. -/
theorem empty_token_set_noop_witness :
    store [⟨"beta gamma delta", ["beta", "gamma", "delta"], "text", "A", []⟩]
      "is a" "text" "x" none =
      [⟨"beta gamma delta", ["beta", "gamma", "delta"], "text", "A", []⟩] ∧
    lookup [⟨"beta gamma delta", ["beta", "gamma", "delta"], "text", "A", []⟩]
      "is a" "text" none ((1 : ℚ) / 2) = none :=
  ⟨empty_token_set_noop.1 _ "is a" "text" "x" none (by decide),
    empty_token_set_noop.2 _ "is a" "text" none ((1 : ℚ) / 2) (by decide)⟩

/-! ### Discovery lemmas -/

lemma processLink_fields (known : String → Bool) (s : CollectSt) (l : Link) :
    (processLink known s l).consulted = s.consulted ∧
    (processLink known s l).nextPage = s.nextPage ∧
    (processLink known s l).globalEmptyStreak = s.globalEmptyStreak ∧
    (processLink known s l).estimatedTotalJobs = s.estimatedTotalJobs ∧
    (processLink known s l).totalPages = s.totalPages := by
  unfold processLink
  split
  · exact ⟨rfl, rfl, rfl, rfl, rfl⟩
  · split
    · exact ⟨rfl, rfl, rfl, rfl, rfl⟩
    · exact ⟨rfl, rfl, rfl, rfl, rfl⟩

lemma foldLinks_fields (known : String → Bool) (links : List Link) (s : CollectSt) :
    (links.foldl (processLink known) s).consulted = s.consulted ∧
    (links.foldl (processLink known) s).globalEmptyStreak = s.globalEmptyStreak := by
  induction links generalizing s with
  | nil => exact ⟨rfl, rfl⟩
  | cons l ls ih =>
    simp only [List.foldl_cons]
    obtain ⟨h1, h2⟩ := ih (processLink known s l)
    obtain ⟨g1, _, g3, _, _⟩ := processLink_fields known s l
    exact ⟨h1.trans g1, h2.trans g3⟩

lemma pickupTotal_fields (s : CollectSt) (res : PageResult) :
    (pickupTotal s res).consulted = s.consulted ∧
    (pickupTotal s res).globalEmptyStreak = s.globalEmptyStreak ∧
    (pickupTotal s res).jobs = s.jobs ∧
    (pickupTotal s res).seenJobKeys = s.seenJobKeys ∧
    (pickupTotal s res).nextPage = s.nextPage := by
  unfold pickupTotal
  cases res.jobCount with
  | none => exact ⟨rfl, rfl, rfl, rfl, rfl⟩
  | some c =>
    dsimp only
    split
    · exact ⟨rfl, rfl, rfl, rfl, rfl⟩
    · exact ⟨rfl, rfl, rfl, rfl, rfl⟩

lemma processResult_consulted (known : String → Bool) (s : CollectSt) (res : PageResult) :
    (processResult known s res).consulted = s.consulted := by
  unfold processResult
  obtain ⟨h1, _, _, _, _⟩ := pickupTotal_fields s res
  split
  · exact h1
  · split
    · exact h1
    · exact (foldLinks_fields known res.links _).1.trans h1

lemma processResult_empty_streak (known : String → Bool) (s : CollectSt) (res : PageResult)
    (h : countsEmpty res = true) :
    (processResult known s res).globalEmptyStreak = s.globalEmptyStreak + 1 := by
  unfold countsEmpty at h
  obtain ⟨_, h2, _, _, _⟩ := pickupTotal_fields s res
  cases herr : res.error with
  | true => simp [processResult, herr, h2]
  | false =>
    rw [herr] at h
    simp only [Bool.false_or] at h
    simp [processResult, herr, h, h2]

lemma collectLoop_zero (driver : Nat → PageResult) (known : String → Bool)
    (ma tabs : Nat) (st : CollectSt) :
    collectLoop driver known ma tabs 0 st = st := rfl

lemma collectLoop_succ (driver : Nat → PageResult) (known : String → Bool)
    (ma tabs fuel : Nat) (st : CollectSt) :
    collectLoop driver known ma tabs (fuel + 1) st =
      if 3 ≤ st.globalEmptyStreak then st
      else if 0 < st.estimatedTotalJobs ∧ 0 < st.totalPages ∧
          st.totalPages < st.nextPage then st
      else
        let asg := pageAssignments tabs st
        if asg.isEmpty then st
        else
          let st1 := asg.foldl
            (fun s pn =>
              processResult known { s with consulted := s.consulted ++ [pn] } (driver pn))
            st
          if 0 < ma ∧ ma ≤ pendingCount st1.jobs then st1
          else collectLoop driver known ma tabs fuel
            { st1 with nextPage := st.nextPage + asg.length } := rfl

lemma pageAssignments_one (st : CollectSt)
    (h : ¬(0 < st.estimatedTotalJobs ∧ 0 < st.totalPages ∧ st.totalPages < st.nextPage)) :
    pageAssignments 1 st = [st.nextPage] := by
  have hr : List.range 1 = [0] := rfl
  simp [pageAssignments, hr, List.takeWhile, h]

lemma collectLoop_no_page_after_streak (driver : Nat → PageResult) (known : String → Bool)
    (ma p : Nat)
    (h0 : countsEmpty (driver p) = true)
    (h1 : countsEmpty (driver (p + 1)) = true)
    (h2 : countsEmpty (driver (p + 2)) = true) :
    ∀ (fuel : Nat) (st : CollectSt), StreakPos st p → (p + 3) ∉ st.consulted →
      (p + 3) ∉ (collectLoop driver known ma 1 fuel st).consulted := by
  intro fuel
  induction fuel with
  | zero =>
    intro st _ hc
    rw [collectLoop_zero]
    exact hc
  | succ fuel ih =>
    intro st hpos hc
    rw [collectLoop_succ]
    by_cases hstreak : 3 ≤ st.globalEmptyStreak
    · rw [if_pos hstreak]; exact hc
    · rw [if_neg hstreak]
      by_cases hbound : 0 < st.estimatedTotalJobs ∧ 0 < st.totalPages ∧
          st.totalPages < st.nextPage
      · rw [if_pos hbound]; exact hc
      · rw [if_neg hbound]
        rw [pageAssignments_one st hbound]
        simp only [List.isEmpty_cons, List.foldl_cons, List.foldl_nil, List.length_cons,
          List.length_nil, if_neg Bool.false_ne_true]
        set st1 := processResult known
          { st with consulted := st.consulted ++ [st.nextPage] } (driver st.nextPage) with hst1
        have hnp_le : st.nextPage ≤ p + 2 := by
          rcases hpos with h | h | h | h
          · omega
          · omega
          · omega
          · exact absurd h.2 hstreak
        have hne : st.nextPage ≠ p + 3 := by omega
        have hcons : st1.consulted = st.consulted ++ [st.nextPage] := by
          rw [hst1, processResult_consulted]
        have hc1 : (p + 3) ∉ st1.consulted := by
          rw [hcons]
          intro hmem
          rcases List.mem_append.mp hmem with hmem | hmem
          · exact hc hmem
          · simp only [List.mem_singleton] at hmem
            exact hne hmem.symm
        by_cases hmax : 0 < ma ∧ ma ≤ pendingCount st1.jobs
        · rw [if_pos hmax]; exact hc1
        · rw [if_neg hmax]
          apply ih
          · -- StreakPos of the advanced state
            rcases hpos with h | h | h | h
            · by_cases hlt : st.nextPage < p
              · left; simpa using hlt
              · have heq : st.nextPage = p := le_antisymm h (not_lt.mp hlt)
                right; left
                constructor
                · show st.nextPage + 1 = p + 1
                  omega
                · have := processResult_empty_streak known
                    { st with consulted := st.consulted ++ [st.nextPage] }
                    (driver st.nextPage) (by rw [heq]; exact h0)
                  rw [← hst1] at this
                  simp only [this]
                  omega
            · right; right; left
              constructor
              · show st.nextPage + 1 = p + 1 + 1
                omega
              · have := processResult_empty_streak known
                  { st with consulted := st.consulted ++ [st.nextPage] }
                  (driver st.nextPage) (by rw [h.1]; exact h1)
                rw [← hst1] at this
                simp only [this]
                omega
            · right; right; right
              constructor
              · show st.nextPage + 1 = p + 2 + 1
                omega
              · have := processResult_empty_streak known
                  { st with consulted := st.consulted ++ [st.nextPage] }
                  (driver st.nextPage) (by rw [h.1]; exact h2)
                rw [← hst1] at this
                simp only [this]
                omega
            · exact absurd h.2 hstreak
          · exact hc1

lemma processLink_inv (known : String → Bool) (J0 : List JobEntry) (st : CollectSt)
    (l : Link) (h : CollectInv known J0 st) : CollectInv known J0 (processLink known st l) := by
  obtain ⟨hseen, new, hjobs, hnodup, hprops⟩ := h
  unfold processLink
  by_cases hm : st.seenJobKeys.contains l.jobKey = true
  · rw [if_pos hm]
    exact ⟨hseen, new, hjobs, hnodup, hprops⟩
  · rw [if_neg hm]
    have hnotmem : l.jobKey ∉ st.seenJobKeys := fun hmem => hm (List.elem_iff.mpr hmem)
    have hseen2 : (st.seenJobKeys ++ [l.jobKey]).Nodup := by
      rw [List.nodup_append]
      exact ⟨hseen, List.nodup_singleton _, by
        intro a ha hb
        simp only [List.mem_singleton] at hb
        rw [hb] at ha
        exact hnotmem ha⟩
    by_cases hk : known l.jobKey = true
    · rw [if_pos hk]
      refine ⟨hseen2, new, hjobs, hnodup, ?_⟩
      intro j hj
      obtain ⟨p1, p2, p3⟩ := hprops j hj
      exact ⟨p1, List.mem_append_left _ p2, p3⟩
    · rw [if_neg hk]
      refine ⟨hseen2, new ++ [⟨l.url, l.jobKey, JobStatus.pending, none⟩], ?_, ?_, ?_⟩
      · rw [hjobs, List.append_assoc]
      · rw [List.map_append]
        rw [List.nodup_append]
        refine ⟨hnodup, List.nodup_singleton _, ?_⟩
        intro a ha hb
        simp only [List.map_cons, List.map_nil, List.mem_singleton] at hb
        obtain ⟨j, hj, hjk⟩ := List.mem_map.mp ha
        obtain ⟨_, p2, _⟩ := hprops j hj
        rw [hb] at hjk
        rw [← hjk] at hnotmem
        exact hnotmem p2
      · intro j hj
        rcases List.mem_append.mp hj with hj | hj
        · obtain ⟨p1, p2, p3⟩ := hprops j hj
          exact ⟨p1, List.mem_append_left _ p2, p3⟩
        · simp only [List.mem_singleton] at hj
          subst hj
          exact ⟨Bool.eq_false_iff.mpr hk, List.mem_append_right _ (List.mem_singleton_self _),
            rfl⟩

lemma foldLinks_inv (known : String → Bool) (J0 : List JobEntry) (links : List Link) :
    ∀ st : CollectSt, CollectInv known J0 st →
      CollectInv known J0 (links.foldl (processLink known) st) := by
  induction links with
  | nil => intro st h; exact h
  | cons l ls ih =>
    intro st h
    simp only [List.foldl_cons]
    exact ih _ (processLink_inv known J0 st l h)

lemma inv_of_same_jobs_seen (known : String → Bool) (J0 : List JobEntry)
    (st st' : CollectSt) (hj : st'.jobs = st.jobs) (hs : st'.seenJobKeys = st.seenJobKeys)
    (h : CollectInv known J0 st) : CollectInv known J0 st' := by
  obtain ⟨hseen, new, hjobs, hnodup, hprops⟩ := h
  refine ⟨hs ▸ hseen, new, hj ▸ hjobs, hnodup, ?_⟩
  intro j hjmem
  obtain ⟨p1, p2, p3⟩ := hprops j hjmem
  exact ⟨p1, hs ▸ p2, p3⟩

lemma processResult_inv (known : String → Bool) (J0 : List JobEntry) (st : CollectSt)
    (res : PageResult) (h : CollectInv known J0 st) :
    CollectInv known J0 (processResult known st res) := by
  obtain ⟨_, _, hj, hs, _⟩ := pickupTotal_fields st res
  have hpt : CollectInv known J0 (pickupTotal st res) :=
    inv_of_same_jobs_seen known J0 st _ hj hs h
  unfold processResult
  split
  · exact inv_of_same_jobs_seen known J0 _ _ rfl rfl hpt
  · split
    · exact inv_of_same_jobs_seen known J0 _ _ rfl rfl hpt
    · exact foldLinks_inv known J0 res.links _
        (inv_of_same_jobs_seen known J0 _ _ rfl rfl hpt)

lemma foldPages_inv (driver : Nat → PageResult) (known : String → Bool)
    (J0 : List JobEntry) (asg : List Nat) :
    ∀ st : CollectSt, CollectInv known J0 st →
      CollectInv known J0 (asg.foldl
        (fun s pn =>
          processResult known { s with consulted := s.consulted ++ [pn] } (driver pn)) st) := by
  induction asg with
  | nil => intro st h; exact h
  | cons pn rest ih =>
    intro st h
    simp only [List.foldl_cons]
    refine ih _ (processResult_inv known J0 _ _ ?_)
    exact inv_of_same_jobs_seen known J0 st _ rfl rfl h

lemma collectLoop_inv (driver : Nat → PageResult) (known : String → Bool)
    (ma tabs : Nat) (J0 : List JobEntry) :
    ∀ (fuel : Nat) (st : CollectSt), CollectInv known J0 st →
      CollectInv known J0 (collectLoop driver known ma tabs fuel st) := by
  intro fuel
  induction fuel with
  | zero => intro st h; rw [collectLoop_zero]; exact h
  | succ fuel ih =>
    intro st h
    rw [collectLoop_succ]
    split
    · exact h
    · split
      · exact h
      · dsimp only
        split
        · exact h
        · have h1 := foldPages_inv driver known J0 (pageAssignments tabs st) st h
          split
          · exact h1
          · exact ih _ (inv_of_same_jobs_seen known J0 _ _ rfl rfl h1)

lemma processFirstPage_inv (known : String → Bool) (J0 : List JobEntry) (st : CollectSt)
    (res : PageResult) (h : CollectInv known J0 st) :
    CollectInv known J0 (processFirstPage known st res) := by
  have hpt : CollectInv known J0 (pickupTotalFirst st res) := by
    refine inv_of_same_jobs_seen known J0 st _ ?_ ?_ h
    · unfold pickupTotalFirst
      cases res.jobCount
      · rfl
      · dsimp only; split <;> rfl
    · unfold pickupTotalFirst
      cases res.jobCount
      · rfl
      · dsimp only; split <;> rfl
  unfold processFirstPage
  split
  · exact foldLinks_inv known J0 res.links _
      (inv_of_same_jobs_seen known J0 _ _ rfl rfl hpt)
  · exact inv_of_same_jobs_seen known J0 _ _ rfl rfl hpt

lemma collectQuery_inv (J0 : List JobEntry) (driver : Nat → PageResult)
    (known : String → Bool) (ma tabs fuel : Nat) :
    CollectInv known J0 (collectQuery J0 driver known ma tabs fuel) := by
  have h0 : CollectInv known J0 (initCollectSt J0) := by
    refine ⟨List.nodup_nil, [], by simp [initCollectSt], List.nodup_nil, ?_⟩
    intro j hj
    exact absurd hj (List.not_mem_nil j)
  unfold collectQuery
  have h1 := processFirstPage_inv known J0 _ (driver 1) h0
  dsimp only
  split
  · exact h1
  · exact collectLoop_inv driver known ma tabs J0 fuel _ h1


/-- C6: in any single discovery pass, the entries enqueued during the pass
have pairwise distinct job keys, are all pending, and none of their keys is
known to the registry. -/
theorem discovery_dedup_no_reenqueue :
    ∀ (J0 : List JobEntry) (driver : Nat → PageResult) (known : String → Bool)
      (ma tabs fuel : Nat),
      (((collectQuery J0 driver known ma tabs fuel).jobs.drop J0.length).map
        (fun j => j.jobKey)).Nodup ∧
      ∀ j ∈ (collectQuery J0 driver known ma tabs fuel).jobs.drop J0.length,
        known j.jobKey = false ∧ j.status = JobStatus.pending := by
  intro J0 driver known ma tabs fuel
  obtain ⟨_, new, hjobs, hnodup, hprops⟩ := collectQuery_inv J0 driver known ma tabs fuel
  rw [hjobs, List.drop_left]
  exact ⟨hnodup, fun j hj => ⟨(hprops j hj).1, (hprops j hj).2.2⟩⟩

/-- Witness for C6 on a concrete pass whose driver repeats the same link on
four pages. -/
theorem discovery_dedup_no_reenqueue_witness :
    (((collectQuery [] c2Driver (fun _ => false) 0 1 5).jobs.drop 0).map
      (fun j => j.jobKey)).Nodup ∧
    ∀ j ∈ (collectQuery [] c2Driver (fun _ => false) 0 1 5).jobs.drop 0,
      (fun _ => false) j.jobKey = false ∧ j.status = JobStatus.pending :=
  discovery_dedup_no_reenqueue [] c2Driver (fun _ => false) 0 1 5

/-- C2 counterexample: pages 2, 3 and 4 of the counterexample driver yield
zero new links (their only link is an intra-pass duplicate), yet the pass
goes on to consult page 5 and enqueues its fresh link, because the streak
counts only pages with zero raw links. -/
theorem pagination_streak_counterexample :
    (collectQuery [] c2Driver (fun _ => false) 0 1 3).jobs =
      (collectQuery [] c2Driver (fun _ => false) 0 1 0).jobs ∧
    (collectQuery [] c2Driver (fun _ => false) 0 1 3).consulted = [1, 2, 3, 4] ∧
    5 ∈ (collectQuery [] c2Driver (fun _ => false) 0 1 20).consulted ∧
    "b" ∈ ((collectQuery [] c2Driver (fun _ => false) 0 1 20).jobs.map
      (fun j => j.jobKey)) := by
  refine ⟨by decide, by decide, by decide, by decide⟩

/-- C2 amended: with a single scraping tab, once three consecutive pages
return zero links or errors the pass never consults a later page, and a
streak of three stops the loop at the top of the round before any other
termination condition of the round is evaluated. -/
theorem pagination_streak_amended :
    (∀ (driver : Nat → PageResult) (known : String → Bool) (ma fuel : Nat)
        (st : CollectSt) (p : Nat),
      countsEmpty (driver p) = true → countsEmpty (driver (p + 1)) = true →
      countsEmpty (driver (p + 2)) = true → st.nextPage ≤ p →
      (p + 3) ∉ st.consulted →
        (p + 3) ∉ (collectLoop driver known ma 1 fuel st).consulted) ∧
    (∀ (driver : Nat → PageResult) (known : String → Bool) (ma tabs fuel : Nat)
        (st : CollectSt), 3 ≤ st.globalEmptyStreak →
        collectLoop driver known ma tabs fuel st = st) := by
  constructor
  · intro driver known ma fuel st p h0 h1 h2 hle hc
    exact collectLoop_no_page_after_streak driver known ma p h0 h1 h2 fuel st
      (Or.inl hle) hc
  · intro driver known ma tabs fuel st h
    cases fuel with
    | zero => rw [collectLoop_zero]
    | succ fuel => rw [collectLoop_succ, if_pos h]

/-- Witness for the C2 amended theorem on an all-empty driver. -/
theorem pagination_streak_amended_witness :
    5 ∉ (collectLoop (fun _ => ⟨[], 0, 0, none, false⟩) (fun _ => false) 0 1 10
      (initCollectSt [])).consulted ∧
    collectLoop (fun _ => ⟨[], 0, 0, none, false⟩) (fun _ => false) 0 1 10
        { initCollectSt [] with globalEmptyStreak := 3 } =
      { initCollectSt [] with globalEmptyStreak := 3 } :=
  ⟨pagination_streak_amended.1 (fun _ => ⟨[], 0, 0, none, false⟩) (fun _ => false)
      0 10 (initCollectSt []) 2 (by decide) (by decide) (by decide) (by decide)
      (by decide),
    pagination_streak_amended.2 (fun _ => ⟨[], 0, 0, none, false⟩) (fun _ => false)
      0 1 10 { initCollectSt [] with globalEmptyStreak := 3 } (by decide)⟩

/-! ### Worker pool lemmas -/


lemma pendingCount_cons (j : JobEntry) (rest : List JobEntry) :
    pendingCount (j :: rest) =
      (if j.status = JobStatus.pending then 1 else 0) + pendingCount rest := by
  unfold pendingCount
  rw [List.filter_cons]
  by_cases hp : j.status = JobStatus.pending
  · simp [hp, Nat.add_comm]
  · simp [hp]

lemma findPendingIdx_some_pending : ∀ (jobs : List JobEntry) (i : Nat),
    findPendingIdx jobs = some i →
    ∃ j, jobs[i]? = some j ∧ j.status = JobStatus.pending := by
  intro jobs
  induction jobs with
  | nil => intro i h; exact absurd h (by simp [findPendingIdx])
  | cons j rest ih =>
    intro i h
    unfold findPendingIdx at h
    split at h
    · have hi : i = 0 := (Option.some.inj h).symm
      subst hi
      exact ⟨j, by simp, by assumption⟩
    · cases hrec : findPendingIdx rest with
      | none =>
        rw [hrec] at h
        exact absurd h (by simp [Option.map_none])
      | some k =>
        rw [hrec] at h
        obtain ⟨j', hj', hp⟩ := ih k hrec
        have hi : i = k + 1 := (Option.some.inj h).symm
        subst hi
        exact ⟨j', by simpa using hj', hp⟩

lemma findPendingIdx_isSome_of_pos : ∀ (jobs : List JobEntry),
    0 < pendingCount jobs → (findPendingIdx jobs).isSome = true := by
  intro jobs
  induction jobs with
  | nil => intro h; simp [pendingCount] at h
  | cons j rest ih =>
    intro h
    unfold findPendingIdx
    split
    · rfl
    · rw [pendingCount_cons] at h
      rw [if_neg (by assumption)] at h
      simp only [Nat.zero_add] at h
      have := ih h
      cases hrec : findPendingIdx rest with
      | none => rw [hrec] at this; exact absurd this (by simp)
      | some k => simp [hrec]

lemma any_pending_iff_pos (jobs : List JobEntry) :
    (jobs.any (fun j => j.status = JobStatus.pending)) = true ↔ 0 < pendingCount jobs := by
  induction jobs with
  | nil => simp [pendingCount]
  | cons j rest ih =>
    rw [pendingCount_cons, List.any_cons]
    by_cases hp : j.status = JobStatus.pending
    · simp [hp]
    · simp only [hp, if_neg hp, decide_eq_true_eq, Bool.false_or, Nat.zero_add]
      simpa using ih

lemma getElem?_some_lt {α} (l : List α) (i : Nat) (a : α) (h : l[i]? = some a) :
    i < l.length := by
  by_contra hge
  rw [List.getElem?_eq_none (le_of_not_lt hge)] at h
  exact Option.noConfusion h

lemma pendingCount_set_nonpending : ∀ (jobs : List JobEntry) (i : Nat) (j v : JobEntry),
    jobs[i]? = some j → j.status = JobStatus.pending → v.status ≠ JobStatus.pending →
    pendingCount (jobs.set i v) + 1 = pendingCount jobs := by
  intro jobs
  induction jobs with
  | nil => intro i j v h; exact absurd h (by simp)
  | cons a rest ih =>
    intro i j v h hj hv
    cases i with
    | zero =>
      simp only [List.getElem?_cons_zero] at h
      have ha : a = j := Option.some.inj h
      subst ha
      simp only [List.set_cons_zero]
      rw [pendingCount_cons, pendingCount_cons, if_pos hj, if_neg hv]
      omega
    | succ k =>
      simp only [List.getElem?_cons_succ] at h
      simp only [List.set_cons_succ]
      rw [pendingCount_cons, pendingCount_cons]
      have := ih k j v h hj hv
      omega


lemma launchNext_eq_or_claim (tabId : Int) (s : PoolState) :
    launchNextWorker tabId s = s ∨
    ∃ i j, s.stopRequested = false ∧ findPendingIdx s.jobs = some i ∧
      s.jobs[i]? = some j ∧ j.status = JobStatus.pending ∧
      launchNextWorker tabId s =
        { s with
            jobs := s.jobs.set i
              { j with status := JobStatus.skipped, skipReason := some "in_progress" },
            tabWorkers := s.tabWorkers ++ [⟨tabId, i, WPhase.navigating⟩] } := by
  unfold launchNextWorker
  by_cases hstop : s.stopRequested = true
  · left; simp [hstop]
  · rw [if_neg hstop]
    by_cases hbudget : 0 < s.maxApplies ∧ s.maxApplies ≤ s.appliedCount
    · left; rw [if_pos hbudget]
    · rw [if_neg hbudget]
      cases hfind : s.nextPendingIdx with
      | none => left; simp [hfind]
      | some i =>
        right
        obtain ⟨j, hj, hp⟩ := findPendingIdx_some_pending s.jobs i hfind
        refine ⟨i, j, Bool.eq_false_iff.mpr hstop, hfind, hj, hp, ?_⟩
        simp only [hfind]
        unfold claimJob
        rw [hj]

lemma launchNext_length_le (tabId : Int) (s : PoolState) :
    (launchNextWorker tabId s).tabWorkers.length ≤ s.tabWorkers.length + 1 := by
  rcases launchNext_eq_or_claim tabId s with h | ⟨i, j, _, _, _, _, h⟩
  · rw [h]; omega
  · rw [h]; simp

lemma launchNext_success (tabId : Int) (s : PoolState)
    (hstop : s.stopRequested = false)
    (hbudget : ¬(0 < s.maxApplies ∧ s.maxApplies ≤ s.appliedCount))
    (hpend : 0 < pendingCount s.jobs) :
    (launchNextWorker tabId s).tabWorkers.length = s.tabWorkers.length + 1 ∧
    (launchNextWorker tabId s).activeWorkers = s.activeWorkers + 1 ∧
    pendingCount (launchNextWorker tabId s).jobs + 1 = pendingCount s.jobs ∧
    (launchNextWorker tabId s).appliedCount = s.appliedCount ∧
    (launchNextWorker tabId s).stopRequested = s.stopRequested ∧
    (launchNextWorker tabId s).maxApplies = s.maxApplies ∧
    (launchNextWorker tabId s).maxTabs = s.maxTabs := by
  have hsome := findPendingIdx_isSome_of_pos s.jobs hpend
  unfold launchNextWorker
  rw [if_neg (by rw [hstop]; exact Bool.false_ne_true), if_neg hbudget]
  cases hfind : s.nextPendingIdx with
  | none =>
    unfold PoolState.nextPendingIdx at hfind
    rw [hfind] at hsome
    exact absurd hsome (by simp)
  | some i =>
    obtain ⟨j, hj, hp⟩ := findPendingIdx_some_pending s.jobs i hfind
    dsimp only
    unfold claimJob
    rw [hj]
    refine ⟨by simp, ?_, ?_, rfl, rfl, rfl, rfl⟩
    · unfold PoolState.activeWorkers
      simp [List.filter_append]
    · exact pendingCount_set_nonpending s.jobs i j _ hj hp (by simp)


lemma jobClaimed_set_nonpending (jobs : List JobEntry) (i idx : Nat) (v : JobEntry)
    (hv : v.status ≠ JobStatus.pending) (h : jobClaimed jobs idx) :
    jobClaimed (jobs.set i v) idx := by
  obtain ⟨j, hj, hs⟩ := h
  by_cases hi : i = idx
  · subst hi
    exact ⟨v, List.getElem?_set_self (getElem?_some_lt jobs i j hj), hv⟩
  · exact ⟨j, by rw [List.getElem?_set_ne hi]; exact hj, hs⟩

lemma jobClaimed_mono_set (jobs : List JobEntry) (i idx : Nat) (v : JobEntry)
    (hv : v.status ≠ JobStatus.pending) :
    jobClaimed jobs idx → jobClaimed (jobs.set i v) idx :=
  jobClaimed_set_nonpending jobs i idx v hv

lemma launchNext_claimInv (tabId : Int) (s : PoolState) (h : ClaimInv s) :
    ClaimInv (launchNextWorker tabId s) := by
  rcases launchNext_eq_or_claim tabId s with heq | ⟨i, j, _, hfind, hj, hp, heq⟩
  · rw [heq]; exact h
  · rw [heq]
    obtain ⟨hnodup, hclaimed⟩ := h
    constructor
    · rw [List.map_append]
      rw [List.nodup_append]
      refine ⟨hnodup, by simp, ?_⟩
      intro a ha hb
      simp only [List.map_cons, List.map_nil, List.mem_singleton] at hb
      subst hb
      obtain ⟨w, hw, hwi⟩ := List.mem_map.mp ha
      obtain ⟨j', hj', hs'⟩ := hclaimed w hw
      rw [hwi] at hj'
      rw [hj] at hj'
      exact hs' (by rw [← Option.some.inj hj']; exact hp)
    · intro w hw
      rcases List.mem_append.mp hw with hw | hw
      · exact jobClaimed_set_nonpending s.jobs i w.jobIdx _ (by simp) (hclaimed w hw)
      · simp only [List.mem_singleton] at hw
        subst hw
        exact ⟨_, List.getElem?_set_self (getElem?_some_lt s.jobs i j hj), by simp⟩

lemma map_jobIdx_set_phase : ∀ (ws : List TabWorker) (wi : Nat) (w : TabWorker) (p : WPhase),
    ws[wi]? = some w →
    (ws.set wi { w with phase := p }).map (fun x => x.jobIdx) =
      ws.map (fun x => x.jobIdx) := by
  intro ws
  induction ws with
  | nil => intro wi w p h; simp at h
  | cons a rest ih =>
    intro wi w p h
    cases wi with
    | zero =>
      simp only [List.getElem?_cons_zero] at h
      have ha : a = w := Option.some.inj h
      subst ha
      simp
    | succ k =>
      simp only [List.getElem?_cons_succ] at h
      simp only [List.set_cons_succ, List.map_cons]
      rw [ih k w p h]

lemma setWorkerPhase_fields (s : PoolState) (wi : Nat) (p : WPhase) :
    (setWorkerPhase s wi p).jobs = s.jobs ∧
    (setWorkerPhase s wi p).stopRequested = s.stopRequested ∧
    (setWorkerPhase s wi p).appliedCount = s.appliedCount ∧
    (setWorkerPhase s wi p).maxApplies = s.maxApplies ∧
    (setWorkerPhase s wi p).maxTabs = s.maxTabs ∧
    (setWorkerPhase s wi p).tabWorkers.length = s.tabWorkers.length := by
  unfold setWorkerPhase
  cases h : s.tabWorkers[wi]? with
  | none => exact ⟨rfl, rfl, rfl, rfl, rfl, rfl⟩
  | some w => exact ⟨rfl, rfl, rfl, rfl, rfl, by simp⟩

lemma setWorkerPhase_map_jobIdx (s : PoolState) (wi : Nat) (p : WPhase) :
    (setWorkerPhase s wi p).tabWorkers.map (fun x => x.jobIdx) =
      s.tabWorkers.map (fun x => x.jobIdx) := by
  unfold setWorkerPhase
  cases h : s.tabWorkers[wi]? with
  | none => rfl
  | some w => exact map_jobIdx_set_phase s.tabWorkers wi w p h

lemma setWorkerPhase_claimInv (s : PoolState) (wi : Nat) (p : WPhase) (h : ClaimInv s) :
    ClaimInv (setWorkerPhase s wi p) := by
  obtain ⟨hnodup, hclaimed⟩ := h
  constructor
  · rw [setWorkerPhase_map_jobIdx]; exact hnodup
  · intro w hw
    obtain ⟨h1, _, _, _, _, _⟩ := setWorkerPhase_fields s wi p
    rw [h1]
    have hsub : w.jobIdx ∈ (setWorkerPhase s wi p).tabWorkers.map (fun x => x.jobIdx) :=
      List.mem_map.mpr ⟨w, hw, rfl⟩
    rw [setWorkerPhase_map_jobIdx] at hsub
    obtain ⟨w', hw', hwi⟩ := List.mem_map.mp hsub
    rw [← hwi]
    exact hclaimed w' hw'

lemma applyOutcome_fields (s : PoolState) (i : Nat) (o : Outcome) :
    (applyOutcome s i o).tabWorkers = s.tabWorkers ∧
    (applyOutcome s i o).stopRequested = s.stopRequested ∧
    (applyOutcome s i o).maxApplies = s.maxApplies ∧
    (applyOutcome s i o).maxTabs = s.maxTabs := by
  cases o with
  | applied => exact ⟨rfl, rfl, rfl, rfl⟩
  | skippedWith r => exact ⟨rfl, rfl, rfl, rfl⟩
  | failed => exact ⟨rfl, rfl, rfl, rfl⟩

lemma setJobStatus_claims (jobs : List JobEntry) (i : Nat) (st : JobStatus)
    (hst : st ≠ JobStatus.pending) (idx : Nat) (h : jobClaimed jobs idx) :
    jobClaimed (setJobStatus jobs i st) idx := by
  unfold setJobStatus
  cases hj : jobs[i]? with
  | none => exact h
  | some j => exact jobClaimed_set_nonpending jobs i idx _ hst h

lemma setJobSkipped_claims (jobs : List JobEntry) (i : Nat) (r : String)
    (idx : Nat) (h : jobClaimed jobs idx) :
    jobClaimed (setJobSkipped jobs i r) idx := by
  unfold setJobSkipped
  cases hj : jobs[i]? with
  | none => exact h
  | some j => exact jobClaimed_set_nonpending jobs i idx _ (by simp) h

lemma applyOutcome_claimInv (s : PoolState) (i : Nat) (o : Outcome) (h : ClaimInv s) :
    ClaimInv (applyOutcome s i o) := by
  obtain ⟨hnodup, hclaimed⟩ := h
  obtain ⟨hw, _, _, _⟩ := applyOutcome_fields s i o
  refine ⟨by rw [hw]; exact hnodup, ?_⟩
  intro w hwmem
  rw [hw] at hwmem
  cases o with
  | applied =>
    exact setJobStatus_claims s.jobs i JobStatus.applied (by simp) w.jobIdx (hclaimed w hwmem)
  | skippedWith r =>
    exact setJobSkipped_claims s.jobs i r w.jobIdx (hclaimed w hwmem)
  | failed =>
    exact setJobStatus_claims s.jobs i JobStatus.failed (by simp) w.jobIdx (hclaimed w hwmem)

lemma stopBot_fields (s : PoolState) :
    (stopBot s).tabWorkers = s.tabWorkers ∧ (stopBot s).jobs = s.jobs ∧
    (stopBot s).stopRequested = true ∧ (stopBot s).botState = BState.idle ∧
    (stopBot s).maxTabs = s.maxTabs ∧
    (stopBot s).closedTabs = s.closedTabs ++ s.tabWorkers.map (fun w => w.tabId) :=
  ⟨rfl, rfl, rfl, rfl, rfl, rfl⟩


lemma launchNext_maxTabs (tabId : Int) (s : PoolState) :
    (launchNextWorker tabId s).maxTabs = s.maxTabs := by
  rcases launchNext_eq_or_claim tabId s with h | ⟨i, j, _, _, _, _, h⟩
  · rw [h]
  · rw [h]; rfl

lemma setWorkerPhase_pendingRelaunch (s : PoolState) (wi : Nat) (p : WPhase) :
    (setWorkerPhase s wi p).pendingRelaunch = s.pendingRelaunch := by
  unfold setWorkerPhase
  cases h : s.tabWorkers[wi]? with
  | none => rfl
  | some w => rfl

lemma finishWorkerSync_claimInv (s : PoolState) (wi : Nat) (h : ClaimInv s) :
    ClaimInv (finishWorkerSync s wi) := by
  have h1 : ClaimInv (markWorkerDone s wi) := setWorkerPhase_claimInv s wi WPhase.done h
  unfold finishWorkerSync
  dsimp only
  split
  · cases hm : (markWorkerDone s wi).tabWorkers[wi]? with
    | some w => exact h1
    | none => exact h1
  · exact h1

lemma finishWorkerSync_spec (s : PoolState) (wi : Nat)
    (hwi : wi < s.tabWorkers.length) :
    (finishWorkerSync s wi).tabWorkers.length = s.tabWorkers.length ∧
    ((s.stopRequested = false ∧
        s.jobs.any (fun j => j.status = JobStatus.pending) = true) →
      (finishWorkerSync s wi).pendingRelaunch.length =
        s.pendingRelaunch.length + 1) ∧
    (finishWorkerSync s wi).pendingRelaunch.length ≤ s.pendingRelaunch.length + 1 := by
  obtain ⟨hjobs, hstop2, _, _, _, hlen⟩ := setWorkerPhase_fields s wi WPhase.done
  have hrel := setWorkerPhase_pendingRelaunch s wi WPhase.done
  unfold finishWorkerSync markWorkerDone
  dsimp only
  by_cases hguard : (setWorkerPhase s wi WPhase.done).stopRequested = false ∧
      ((setWorkerPhase s wi WPhase.done).jobs.any
        (fun j => j.status = JobStatus.pending)) = true
  · rw [if_pos hguard]
    have hwi2 : wi < (setWorkerPhase s wi WPhase.done).tabWorkers.length := by
      rw [hlen]
      exact hwi
    rw [List.getElem?_eq_getElem hwi2]
    refine ⟨by simpa using hlen, fun _ => by simp [hrel], by simp [hrel]⟩
  · rw [if_neg hguard]
    refine ⟨hlen, ?_, by rw [hrel]; omega⟩
    intro hc
    exact absurd ⟨by rw [hstop2]; exact hc.1, by rw [hjobs]; exact hc.2⟩ hguard

lemma poolStep_claimInv {s t : PoolState} (hstep : PoolStep s t) (h : ClaimInv s) :
    ClaimInv t := by
  cases hstep with
  | finish wi o hw hactive =>
    exact finishWorkerSync_claimInv _ wi (applyOutcome_claimInv s _ o h)
  | resume k hk => exact launchNext_claimInv _ _ h
  | advance wi p hw hactive hp => exact setWorkerPhase_claimInv s wi p h
  | pollLaunch h0 hp hrun => exact launchNext_claimInv (-1) s h
  | stop => exact h

lemma poolStep_stopped {s t : PoolState} (hstep : PoolStep s t)
    (h : s.stopRequested = true) :
    t.tabWorkers.map (fun w => w.jobIdx) = s.tabWorkers.map (fun w => w.jobIdx) ∧
    t.stopRequested = true := by
  cases hstep with
  | finish wi o hw hactive =>
    obtain ⟨hws, hstp, _, _⟩ :=
      applyOutcome_fields s ((s.tabWorkers.get ⟨wi, hw⟩).jobIdx) o
    have hs1stop : (markWorkerDone
        (applyOutcome s ((s.tabWorkers.get ⟨wi, hw⟩).jobIdx) o) wi).stopRequested = true := by
      have h2 := (setWorkerPhase_fields
        (applyOutcome s ((s.tabWorkers.get ⟨wi, hw⟩).jobIdx) o) wi WPhase.done).2.1
      unfold markWorkerDone
      rw [h2, hstp]
      exact h
    unfold finishWorkerSync
    dsimp only
    rw [if_neg (fun hcontra => absurd hs1stop (by simp; exact hcontra.1))]
    constructor
    · have hmap := setWorkerPhase_map_jobIdx
        (applyOutcome s ((s.tabWorkers.get ⟨wi, hw⟩).jobIdx) o) wi WPhase.done
      unfold markWorkerDone
      rw [hmap, hws]
    · exact hs1stop
  | resume k hk =>
    have ht : launchNextWorker (s.pendingRelaunch.get ⟨k, hk⟩)
        { s with pendingRelaunch := s.pendingRelaunch.eraseIdx k } =
        { s with pendingRelaunch := s.pendingRelaunch.eraseIdx k } := by
      unfold launchNextWorker
      rw [if_pos (show ({ s with pendingRelaunch := s.pendingRelaunch.eraseIdx k }
        : PoolState).stopRequested = true from h)]
    rw [ht]
    exact ⟨rfl, h⟩
  | advance wi p hw hactive hp =>
    exact ⟨setWorkerPhase_map_jobIdx s wi p,
      by rw [(setWorkerPhase_fields s wi p).2.1]; exact h⟩
  | pollLaunch h0 hp hrun =>
    rw [hrun] at h
    exact Bool.noConfusion h
  | stop => exact ⟨rfl, rfl⟩

lemma poolSteps_claimInv {s t : PoolState} (hs : PoolSteps s t) (h : ClaimInv s) :
    ClaimInv t := by
  induction hs with
  | refl => exact h
  | tail h1 h2 ih => exact poolStep_claimInv h2 ih

lemma poolSteps_stopped {s t : PoolState} (hs : PoolSteps s t)
    (h : s.stopRequested = true) :
    t.tabWorkers.map (fun w => w.jobIdx) = s.tabWorkers.map (fun w => w.jobIdx) ∧
    t.stopRequested = true := by
  induction hs with
  | refl => exact ⟨rfl, h⟩
  | tail h1 h2 ih =>
    obtain ⟨ih1, ih2⟩ := ih
    obtain ⟨g1, g2⟩ := poolStep_stopped h2 ih2
    exact ⟨g1.trans ih1, g2⟩

lemma launchLoop_claimInv : ∀ (n : Nat) (s : PoolState),
    ClaimInv s → ClaimInv (launchLoop n s) := by
  intro n
  induction n with
  | zero => intro s h; exact h
  | succ n ih =>
    intro s h
    exact ih _ (launchNext_claimInv (-1) s h)

lemma launchLoop_maxTabs : ∀ (n : Nat) (s : PoolState),
    (launchLoop n s).maxTabs = s.maxTabs := by
  intro n
  induction n with
  | zero => intro s; rfl
  | succ n ih =>
    intro s
    rw [launchLoop]
    rw [ih, launchNext_maxTabs]

lemma launchLoop_exact : ∀ (n : Nat) (s : PoolState),
    s.stopRequested = false → s.appliedCount = 0 → n ≤ pendingCount s.jobs →
    (launchLoop n s).tabWorkers.length = s.tabWorkers.length + n ∧
    (launchLoop n s).activeWorkers = s.activeWorkers + n := by
  intro n
  induction n with
  | zero => intro s _ _ _; exact ⟨rfl, rfl⟩
  | succ n ih =>
    intro s hstop happ hpend
    have hbudget : ¬(0 < s.maxApplies ∧ s.maxApplies ≤ s.appliedCount) := by
      rw [happ]
      intro ⟨h1, h2⟩
      omega
    have hp0 : 0 < pendingCount s.jobs := by omega
    obtain ⟨l1, l2, l3, l4, l5, _, _⟩ := launchNext_success (-1) s hstop hbudget hp0
    obtain ⟨r1, r2⟩ := ih (launchNextWorker (-1) s)
      (by rw [l5]; exact hstop) (by rw [l4]; exact happ) (by omega)
    rw [launchLoop]
    constructor
    · rw [r1, l1]; omega
    · rw [r2, l2]; omega

lemma numWorkers_le_pending (s : PoolState) : s.numWorkers ≤ pendingCount s.jobs := by
  unfold PoolState.numWorkers
  exact le_trans (min_le_right _ _) (min_le_left _ _)

lemma numWorkers_le_maxTabs (s : PoolState) : s.numWorkers ≤ s.maxTabs := by
  unfold PoolState.numWorkers
  exact min_le_left _ _

lemma launchBatch_counts (jobs0 : List JobEntry) (ma ct : Nat) :
    (launchBatch (initPoolState jobs0 ma ct)).tabWorkers.length =
      (initPoolState jobs0 ma ct).numWorkers ∧
    (launchBatch (initPoolState jobs0 ma ct)).activeWorkers =
      (initPoolState jobs0 ma ct).numWorkers := by
  unfold launchBatch
  obtain ⟨h1, h2⟩ := launchLoop_exact (initPoolState jobs0 ma ct).numWorkers
    (initPoolState jobs0 ma ct) rfl rfl (numWorkers_le_pending _)
  have hl : (initPoolState jobs0 ma ct).tabWorkers.length = 0 := rfl
  have ha : (initPoolState jobs0 ma ct).activeWorkers = 0 := rfl
  constructor
  · rw [h1]; omega
  · rw [h2]; omega


/-- C7 amended: the initial batch launches exactly
min(concurrencyLimit, pendingCount, remainingApplyBudget) workers, so the
applying phase starts within the concurrency limit; the synchronous part
of a worker finish launches nothing itself and arms exactly one delayed
relaunch when stop is unrequested and pending jobs remain (at most one in
every case); and the relaunch, once resumed, launches exactly one worker
when stop is still unrequested, the apply limit is unreached and a pending
job exists, and never more than one.  The global bound of the original
claim does not survive the suspension between finish and relaunch (see the
counterexample). -/
theorem worker_pool_concurrency_amended :
    (∀ (jobs0 : List JobEntry) (ma ct : Nat),
      (launchBatch (initPoolState jobs0 ma ct)).tabWorkers.length =
        (initPoolState jobs0 ma ct).numWorkers ∧
      (launchBatch (initPoolState jobs0 ma ct)).activeWorkers =
        (initPoolState jobs0 ma ct).numWorkers ∧
      (launchBatch (initPoolState jobs0 ma ct)).activeWorkers ≤
        (launchBatch (initPoolState jobs0 ma ct)).maxTabs) ∧
    (∀ (s : PoolState) (wi : Nat), wi < s.tabWorkers.length →
      (finishWorkerSync s wi).tabWorkers.length = s.tabWorkers.length ∧
      ((s.stopRequested = false ∧
          s.jobs.any (fun j => j.status = JobStatus.pending) = true) →
        (finishWorkerSync s wi).pendingRelaunch.length =
          s.pendingRelaunch.length + 1) ∧
      (finishWorkerSync s wi).pendingRelaunch.length ≤
        s.pendingRelaunch.length + 1) ∧
    (∀ (tabId : Int) (s : PoolState),
      (s.stopRequested = false →
        ¬(0 < s.maxApplies ∧ s.maxApplies ≤ s.appliedCount) →
        0 < pendingCount s.jobs →
        (launchNextWorker tabId s).tabWorkers.length = s.tabWorkers.length + 1) ∧
      (launchNextWorker tabId s).tabWorkers.length ≤ s.tabWorkers.length + 1) := by
  refine ⟨?_, ?_, ?_⟩
  · intro jobs0 ma ct
    obtain ⟨h1, h2⟩ := launchBatch_counts jobs0 ma ct
    refine ⟨h1, h2, ?_⟩
    rw [h2]
    unfold launchBatch
    rw [launchLoop_maxTabs]
    exact numWorkers_le_maxTabs _
  · intro s wi hwi
    exact finishWorkerSync_spec s wi hwi
  · intro tabId s
    exact ⟨fun h1 h2 h3 => (launchNext_success tabId s h1 h2 h3).1,
      launchNext_length_le tabId s⟩

/-- C7 counterexample: the concurrency bound and the exactly-one-replacement
clause both fail on the program.  First, a reachable trace with
concurrentTabs = 1 reaches two workers in a non-done phase: the single
batch worker finishes and arms its delayed relaunch, the poll loop
launches a replacement during the delay, and the armed relaunch then
launches another worker.  Second, a worker finishing into an exhausted
apply limit launches no replacement even though a pending job remains. -/
theorem worker_pool_concurrency_counterexample :
    PoolReachable threePendingJobs 0 1 overLimitState ∧
    overLimitState.maxTabs = 1 ∧
    overLimitState.activeWorkers = 2 ∧
    (applyOutcome cexPool 0 Outcome.applied).jobs.any
      (fun j => j.status = JobStatus.pending) = true ∧
    budgetExhaustedFinish.tabWorkers.length = 1 := by
  refine ⟨?_, by decide, by decide, by decide, by decide⟩
  have t1 : PoolStep (launchBatch (initPoolState threePendingJobs 0 1)) olState1 :=
    PoolStep.finish _ 0 (Outcome.skippedWith "external_apply") (by decide) (by decide)
  have t2 : PoolStep olState1 olState2 :=
    PoolStep.pollLaunch olState1 (by decide) (by decide) (by decide)
  have t3 : PoolStep olState2 overLimitState :=
    PoolStep.resume olState2 0 (by decide)
  exact PoolSteps.tail (PoolSteps.tail (PoolSteps.tail (PoolSteps.refl _) t1) t2) t3

/-- Witness for the C7 amended theorem on concrete pools. -/
theorem worker_pool_concurrency_amended_witness :
    ((launchBatch (initPoolState twoPendingJobs 0 2)).tabWorkers.length =
      (initPoolState twoPendingJobs 0 2).numWorkers ∧
      (launchBatch (initPoolState twoPendingJobs 0 2)).activeWorkers =
        (initPoolState twoPendingJobs 0 2).numWorkers ∧
      (launchBatch (initPoolState twoPendingJobs 0 2)).activeWorkers ≤
        (launchBatch (initPoolState twoPendingJobs 0 2)).maxTabs) ∧
    (finishWorkerSync replacementPool 0).pendingRelaunch.length =
      replacementPool.pendingRelaunch.length + 1 ∧
    (launchNextWorker 1 replacementPool).tabWorkers.length =
      replacementPool.tabWorkers.length + 1 :=
  ⟨worker_pool_concurrency_amended.1 twoPendingJobs 0 2,
    (worker_pool_concurrency_amended.2.1 replacementPool 0 (by decide)).2.1
      ⟨by decide, by decide⟩,
    (worker_pool_concurrency_amended.2.2 1 replacementPool).1
      (by decide) (by decide) (by decide)⟩

/-- C8: claiming is one synchronous step of the cooperative scheduler, so in
every reachable pool state no two workers hold the same job index and every
held job is non-pending, hence never claimable again. -/
theorem claim_unique_owner :
    ∀ (jobs0 : List JobEntry) (ma ct : Nat) (s : PoolState),
      PoolReachable jobs0 ma ct s →
      (s.tabWorkers.map (fun w => w.jobIdx)).Nodup ∧
      ∀ w ∈ s.tabWorkers, jobClaimed s.jobs w.jobIdx := by
  intro jobs0 ma ct s hreach
  refine poolSteps_claimInv hreach (launchLoop_claimInv _ _ ?_)
  constructor
  · simp [initPoolState]
  · intro w hw
    simp [initPoolState] at hw

/-- Witness for C8 at the state reached by the initial batch on two jobs. -/
theorem claim_unique_owner_witness :
    ((launchBatch (initPoolState twoPendingJobs 0 2)).tabWorkers.map
      (fun w => w.jobIdx)).Nodup ∧
    ∀ w ∈ (launchBatch (initPoolState twoPendingJobs 0 2)).tabWorkers,
      jobClaimed (launchBatch (initPoolState twoPendingJobs 0 2)).jobs w.jobIdx :=
  claim_unique_owner twoPendingJobs 0 2 _ (PoolSteps.refl _)

/-- C9: stopBot forces the idle state, sets the cooperative cancellation
flag, and closes every worker tab handle; and from any stopped state no
sequence of further scheduler steps (including in-flight continuations)
ever claims another job or clears the flag. -/
theorem stop_forces_idle_no_claims :
    (∀ s : PoolState,
      (stopBot s).botState = BState.idle ∧ (stopBot s).stopRequested = true ∧
      ∀ w ∈ s.tabWorkers, w.tabId ∈ (stopBot s).closedTabs) ∧
    (∀ s t : PoolState, s.stopRequested = true → PoolSteps s t →
      t.tabWorkers.map (fun w => w.jobIdx) = s.tabWorkers.map (fun w => w.jobIdx) ∧
      t.stopRequested = true) := by
  constructor
  · intro s
    refine ⟨rfl, rfl, ?_⟩
    intro w hw
    show w.tabId ∈ s.closedTabs ++ s.tabWorkers.map (fun w => w.tabId)
    exact List.mem_append_right _ (List.mem_map.mpr ⟨w, hw, rfl⟩)
  · intro s t h hsteps
    exact poolSteps_stopped hsteps h

/-- Witness for C9 on a concrete stopped pool. -/
theorem stop_forces_idle_no_claims_witness :
    ((stopBot cexPool).botState = BState.idle ∧
      (stopBot cexPool).stopRequested = true ∧
      ∀ w ∈ cexPool.tabWorkers, w.tabId ∈ (stopBot cexPool).closedTabs) ∧
    ((stopBot (stopBot cexPool)).tabWorkers.map (fun w => w.jobIdx) =
      (stopBot cexPool).tabWorkers.map (fun w => w.jobIdx) ∧
      (stopBot (stopBot cexPool)).stopRequested = true) :=
  ⟨stop_forces_idle_no_claims.1 cexPool,
    stop_forces_idle_no_claims.2 (stopBot cexPool) (stopBot (stopBot cexPool)) rfl
      (PoolSteps.tail (PoolSteps.refl _) (PoolStep.stop _))⟩


end Theorems

end IndeedBot
